import Mathlib

/-!
Verification of the libtest core (`src/lib.rs` and
`src/libtest/formatters/junit.rs`) against its natural-language
specification.  The Rust source is shallowly embedded: pure functions
become Lean functions, the run loop becomes a recursive function over an
explicit state driven by a schedule that resolves the nondeterminism of
thread completion and timeout harvesting, and machine integers are `Nat`
with explicit `% 2^64` where overflow matters.
-/

namespace Libtest

/-- Padding policy of a test name column (`NamePadding` in the source). -/
inductive NamePadding where
  | PadNone
  | PadOnRight
deriving DecidableEq, Repr

/-- Test names (`TestName` in the source). -/
inductive TestName where
  | StaticTestName (s : String)
  | DynTestName (s : String)
  | AlignedTestName (s : String) (p : NamePadding)
deriving DecidableEq, Repr

/-- `TestName::as_slice`: the underlying string of a name. -/
def TestName.as_slice : TestName → String
  | .StaticTestName s => s
  | .DynTestName s => s
  | .AlignedTestName s _ => s

/-- `TestName::padding`. -/
def TestName.padding : TestName → NamePadding
  | .AlignedTestName _ p => p
  | _ => NamePadding.PadNone

/-- `TestName::with_padding`. -/
def TestName.with_padding (n : TestName) (p : NamePadding) : TestName :=
  TestName.AlignedTestName n.as_slice p

/-- `ShouldPanic` in the source. -/
inductive ShouldPanic where
  | No
  | Yes
  | YesWithMessage (s : String)
deriving DecidableEq, Repr

/-- `TestDesc` in the source. -/
structure TestDesc where
  name : TestName
  ignore : Bool
  should_panic : ShouldPanic
  allow_fail : Bool
deriving DecidableEq, Repr

/-- Summary statistics of a sample vector.  Modelled from the spec:
the stats helper (`stats.rs`) is not part of the sources under review;
the spec treats it as a black box exposing these fields (spec 6.4).
`f64` sample values are embedded as rationals. -/
structure Summary where
  sum : ℚ
  min : ℚ
  max : ℚ
  median : ℚ
  median_abs_dev : ℚ
  median_abs_dev_pct : ℚ
deriving DecidableEq, Repr

/-- Median of an already sorted sample list (0 for the empty list).
Modelled from the spec: part of the black-box stats helper. -/
def sortedMedian (l : List ℚ) : ℚ :=
  if l.length = 0 then 0
  else if l.length % 2 = 1 then l.getD (l.length / 2) 0
  else (l.getD (l.length / 2 - 1) 0 + l.getD (l.length / 2) 0) / 2

/-- Modelled from the spec: `Summary::new(&[f64])` of the black-box stats
helper (spec 6.4), computing the fields the harness consumes. -/
def Summary.new (samples : List ℚ) : Summary :=
  let sorted := samples.mergeSort (fun a b => decide (a ≤ b))
  let med := sortedMedian sorted
  let devs :=
    (samples.map fun x => |x - med|).mergeSort (fun a b => decide (a ≤ b))
  let mad := sortedMedian devs * (14826 / 10000 : ℚ)
  { sum := samples.foldl (· + ·) 0
    min := sorted.headD 0
    max := sorted.getLastD 0
    median := med
    median_abs_dev := mad
    median_abs_dev_pct := if med = 0 then 0 else mad / med * 100 }

/-- Modelled from the spec: `winsorize(&mut [f64], pct)` of the black-box
stats helper clamps every sample into the `[pct, 100-pct]` percentile
range (spec 6.4). -/
def winsorize (samples : List ℚ) (pct : ℚ) : List ℚ :=
  let sorted := samples.mergeSort (fun a b => decide (a ≤ b))
  let lo := sorted.getD ((sorted.length * 5 / 100 : Nat)) 0
  let hi := sorted.getD (sorted.length - 1 - (sorted.length * 5 / 100 : Nat)) 0
  let _ := pct
  samples.map fun x => if x < lo then lo else if hi < x then hi else x

/-- `BenchSamples` in the source. -/
structure BenchSamples where
  ns_iter_summ : Summary
  mb_s : Nat
deriving DecidableEq, Repr

/-- `TestResult` in the source. -/
inductive TestResult where
  | TrOk
  | TrFailed
  | TrFailedMsg (s : String)
  | TrIgnored
  | TrAllowedFail
  | TrBench (bs : BenchSamples)
deriving DecidableEq, Repr

/-- Panic payloads caught at the unwind boundary (`Box<dyn Any + Send>`):
a `String` value, a `&'static str`, or anything else. -/
inductive PanicPayload where
  | strValue (s : String)
  | staticStr (s : String)
  | otherAny
deriving DecidableEq, Repr

/-- Whether `small` occurs at the start of `big` (byte/char-wise). -/
def begWith : List Char → List Char → Bool
  | [], _ => true
  | _ :: _, [] => false
  | a :: as, b :: bs => a == b && begWith as bs

/-- Rust `str::contains`: substring containment (for valid UTF-8, byte-wise
substring search coincides with char-wise search). -/
def strContains (hay pat : String) : Bool :=
  let rec go : List Char → Bool
    | [] => pat.data.isEmpty
    | c :: cs => begWith pat.data (c :: cs) || go cs
  go hay.data

/-- Payload extraction in `calc_result`: downcast to `String` first, then to
`&'static str`; anything else yields `none`. -/
def downcastPayload : PanicPayload → Option String
  | .strValue s => some s
  | .staticStr s => some s
  | .otherAny => none

/-- `calc_result` from `src/src/lib.rs` lines 1594-1622. -/
def calc_result (desc : TestDesc) (task_result : Except PanicPayload Unit) :
    TestResult :=
  match desc.should_panic, task_result with
  | .No, .ok _ => TestResult.TrOk
  | .Yes, .error _ => TestResult.TrOk
  | .YesWithMessage msg, .error err =>
    if (downcastPayload err).elim false (fun e => strContains e msg) then
      TestResult.TrOk
    else if desc.allow_fail then
      TestResult.TrAllowedFail
    else
      TestResult.TrFailedMsg
        ("Panic did not include expected string '" ++ msg ++ "'")
  | _, _ =>
    if desc.allow_fail then TestResult.TrAllowedFail else TestResult.TrFailed

/-- The classification table of spec section 4.4, written row by row from
the spec's words (for comparison with `calc_result`). -/
def calc_result_spec (desc : TestDesc) (r : Except PanicPayload Unit) :
    TestResult :=
  match desc.should_panic, r with
  | .No, .ok _ => TestResult.TrOk
  | .No, .error _ =>
    if desc.allow_fail then TestResult.TrAllowedFail else TestResult.TrFailed
  | .Yes, .error _ => TestResult.TrOk
  | .Yes, .ok _ =>
    if desc.allow_fail then TestResult.TrAllowedFail else TestResult.TrFailed
  | .YesWithMessage m, .error payload =>
    if (downcastPayload payload).elim false (fun e => strContains e m) then
      TestResult.TrOk
    else if desc.allow_fail then
      TestResult.TrAllowedFail
    else
      TestResult.TrFailedMsg
        ("Panic did not include expected string '" ++ m ++ "'")
  | .YesWithMessage _, .ok _ =>
    if desc.allow_fail then TestResult.TrAllowedFail else TestResult.TrFailed

/-- Claim C1: for every test descriptor and every execution result,
`calc_result` returns exactly the outcome given by the classification
table in spec section 4.4, with the panic payload downcast first to a
string value and then to a static string slice, a payload of any other
type treated as non-matching, and the `FailedMsg` text as specified. -/
theorem calc_result_matches_spec_table (desc : TestDesc)
    (r : Except PanicPayload Unit) :
    calc_result desc r = calc_result_spec desc r := by
  rcases desc with ⟨name, ignore, sp, af⟩
  cases sp <;> cases r <;> simp [calc_result, calc_result_spec]

instance {ε α : Type} [DecidableEq ε] [DecidableEq α] :
    DecidableEq (Except ε α) := fun a b =>
  match a, b with
  | .ok x, .ok y => decidable_of_iff (x = y) (by simp)
  | .error x, .error y => decidable_of_iff (x = y) (by simp)
  | .ok _, .error _ => isFalse (by simp)
  | .error _, .ok _ => isFalse (by simp)

/-- A test body is an opaque callable; one invocation either returns or
panics with a payload, and writes some bytes to the capture sink.  The
embedding records the observable behaviour of that single invocation. -/
structure TestBody where
  result : Except PanicPayload Unit
  output : List Nat
deriving DecidableEq, Repr

/-- A benchmark body is an opaque callable over a `Bencher`: it sets the
`bytes` hint, and either panics or returns leaving the bencher's
`summary` field as produced by any `iter` calls (`none` when `iter` was
never invoked in `Auto` mode). -/
structure BenchBody where
  bytes : Nat
  run : Except PanicPayload (Option Summary)
  output : List Nat
deriving DecidableEq, Repr

/-- `TestFn` in the source, with the opaque callables replaced by their
observable behaviour. -/
inductive TestFn where
  | StaticTestFn (f : TestBody)
  | StaticBenchFn (f : BenchBody)
  | DynTestFn (f : TestBody)
  | DynBenchFn (f : BenchBody)
deriving DecidableEq, Repr

/-- `TestFn::padding`. -/
def TestFn.padding : TestFn → NamePadding
  | .StaticTestFn _ => NamePadding.PadNone
  | .DynTestFn _ => NamePadding.PadNone
  | .StaticBenchFn _ => NamePadding.PadOnRight
  | .DynBenchFn _ => NamePadding.PadOnRight

/-- `TestDescAndFn` in the source. -/
structure TestDescAndFn where
  desc : TestDesc
  testfn : TestFn
deriving DecidableEq, Repr

/-- `RunIgnored` in the source. -/
inductive RunIgnored where
  | Yes
  | No
  | Only
deriving DecidableEq, Repr

/-- `TestOpts` in the source, restricted to the fields the embedded
operations consume (list/logfile/color/format only drive IO). -/
structure TestOpts where
  filter : Option String
  filter_exact : Bool
  exclude_should_panic : Bool
  run_ignored : RunIgnored
  run_tests : Bool
  bench_benchmarks : Bool
  nocapture : Bool
  test_threads : Option Nat
  skip : List String
deriving DecidableEq, Repr

/-- The `matches_filter` closure inside `filter_tests`. -/
def matches_filter (opts : TestOpts) (test : TestDescAndFn) (filter : String) :
    Bool :=
  let test_name := test.desc.name.as_slice
  if opts.filter_exact then test_name == filter
  else strContains test_name filter

/-- Clearing the ignore bit (`test.desc.ignore = false`). -/
def clearIgnore (t : TestDescAndFn) : TestDescAndFn :=
  { t with desc := { t.desc with ignore := false } }

/-- Lexicographic order on char lists by code point (for valid UTF-8 this
coincides with byte-wise lexicographic order on the encoded strings). -/
def charListLe : List Char → List Char → Bool
  | [], _ => true
  | _ :: _, [] => false
  | a :: as, b :: bs =>
    if a.toNat < b.toNat then true
    else if b.toNat < a.toNat then false
    else charListLe as bs

theorem charListLe_total : ∀ a b : List Char,
    charListLe a b = true ∨ charListLe b a = true := by
  intro a
  induction a with
  | nil => intro b; exact Or.inl rfl
  | cons x xs ih =>
    intro b
    match b with
    | [] => exact Or.inr rfl
    | y :: ys =>
      rcases Nat.lt_trichotomy x.toNat y.toNat with h | h | h
      · left
        simp [charListLe, h]
      · rcases ih ys with h' | h'
        · left
          simp [charListLe, h, h']
        · right
          simp [charListLe, h, h']
      · right
        simp [charListLe, h]

theorem charListLe_trans : ∀ a b c : List Char,
    charListLe a b = true → charListLe b c = true →
      charListLe a c = true := by
  intro a
  induction a with
  | nil => intro b c _ _; rfl
  | cons x xs ih =>
    intro b c hab hbc
    match b, c with
    | [], _ => exact absurd hab (by simp [charListLe])
    | _ :: _, [] => exact absurd hbc (by simp [charListLe])
    | y :: ys, z :: zs =>
      simp only [charListLe] at hab hbc ⊢
      by_cases hxy : x.toNat < y.toNat
      · by_cases hyz : y.toNat < z.toNat
        · have hxz : x.toNat < z.toNat := Nat.lt_trans hxy hyz
          simp [hxz]
        · by_cases hzy : z.toNat < y.toNat
          · rw [if_neg hyz, if_pos hzy] at hbc
            exact absurd hbc (by simp)
          · have hxz : x.toNat < z.toNat := by omega
            simp [hxz]
      · by_cases hyx : y.toNat < x.toNat
        · rw [if_neg hxy, if_pos hyx] at hab
          exact absurd hab (by simp)
        · rw [if_neg hxy, if_neg hyx] at hab
          by_cases hyz : y.toNat < z.toNat
          · have hxz : x.toNat < z.toNat := by omega
            simp [hxz]
          · by_cases hzy : z.toNat < y.toNat
            · rw [if_neg hyz, if_pos hzy] at hbc
              exact absurd hbc (by simp)
            · rw [if_neg hyz, if_neg hzy] at hbc
              have hxz1 : ¬x.toNat < z.toNat := by omega
              have hxz2 : ¬z.toNat < x.toNat := by omega
              rw [if_neg hxz1, if_neg hxz2]
              exact ih ys zs hab hbc

/-- The (propositional form of the) string order used by the sort: char
lists compared lexicographically by code point. -/
def strLe (a b : String) : Prop := charListLe a.data b.data = true

instance : DecidableRel strLe := fun a b =>
  inferInstanceAs (Decidable (charListLe a.data b.data = true))

/-- The sort relation of `filter_tests`: byte-wise lexicographic order on
name slices. -/
def descNameLe (a b : TestDescAndFn) : Prop :=
  strLe a.desc.name.as_slice b.desc.name.as_slice

instance : DecidableRel descNameLe := fun a b =>
  inferInstanceAs
    (Decidable (strLe a.desc.name.as_slice b.desc.name.as_slice))

instance : IsTotal TestDescAndFn descNameLe :=
  ⟨fun a b => charListLe_total a.desc.name.as_slice.data
    b.desc.name.as_slice.data⟩

instance : IsTrans TestDescAndFn descNameLe :=
  ⟨fun a b c hab hbc => charListLe_trans a.desc.name.as_slice.data
    b.desc.name.as_slice.data c.desc.name.as_slice.data hab hbc⟩

/-- Stage 1 of `filter_tests` (lines 1411-1414): keep entries matching the
name filter, when one is set. -/
def filterStage (opts : TestOpts) (l : List TestDescAndFn) :
    List TestDescAndFn :=
  match opts.filter with
  | some f => l.filter fun test => matches_filter opts test f
  | none => l

/-- Stage 2 of `filter_tests` (lines 1416-1418): drop entries matching any
skip filter. -/
def skipStage (opts : TestOpts) (l : List TestDescAndFn) :
    List TestDescAndFn :=
  l.filter fun test => !(opts.skip.any fun sf => matches_filter opts test sf)

/-- Stage 3 of `filter_tests` (lines 1420-1423): drop `should_panic`
entries when `exclude_should_panic` is set. -/
def panicStage (opts : TestOpts) (l : List TestDescAndFn) :
    List TestDescAndFn :=
  if opts.exclude_should_panic then
    l.filter fun test => test.desc.should_panic == ShouldPanic.No
  else l

/-- Stage 4 of `filter_tests` (lines 1425-1439): the `run_ignored` policy. -/
def runIgnoredStage (opts : TestOpts) (l : List TestDescAndFn) :
    List TestDescAndFn :=
  match opts.run_ignored with
  | .Yes => l.map clearIgnore
  | .Only => (l.filter fun test => test.desc.ignore).map clearIgnore
  | .No => l

/-- `filter_tests` from `src/src/lib.rs` lines 1396-1447: the four retain /
mutate stages followed by the stable sort on name slices. -/
def filter_tests (opts : TestOpts) (tests : List TestDescAndFn) :
    List TestDescAndFn :=
  (runIgnoredStage opts
      (panicStage opts (skipStage opts (filterStage opts tests)))).insertionSort
    descNameLe

/-- The predicate enforced by `filterStage` (vacuous when no filter is
set). -/
def pFilter (opts : TestOpts) (t : TestDescAndFn) : Bool :=
  match opts.filter with
  | some f => matches_filter opts t f
  | none => true

/-- The predicate enforced by `skipStage`. -/
def pSkip (opts : TestOpts) (t : TestDescAndFn) : Bool :=
  !(opts.skip.any fun sf => matches_filter opts t sf)

/-- The predicate enforced by `panicStage` (vacuous when
`exclude_should_panic` is unset). -/
def pPanic (opts : TestOpts) (t : TestDescAndFn) : Bool :=
  !opts.exclude_should_panic || t.desc.should_panic == ShouldPanic.No

theorem filterStage_eq_filter (opts : TestOpts) (l : List TestDescAndFn) :
    filterStage opts l = l.filter (pFilter opts) := by
  rcases hf : opts.filter with _ | f
  · simp only [filterStage, hf]
    exact (List.filter_eq_self.2 fun a _ => by simp [pFilter, hf]).symm
  · simp only [filterStage, hf]
    exact List.filter_congr fun a _ => by simp [pFilter, hf]

theorem panicStage_eq_filter (opts : TestOpts) (l : List TestDescAndFn) :
    panicStage opts l = l.filter (pPanic opts) := by
  rcases he : opts.exclude_should_panic with _ | _
  · simp only [panicStage, he, Bool.false_eq_true, if_false]
    exact (List.filter_eq_self.2 fun a _ => by simp [pPanic, he]).symm
  · simp only [panicStage, he, if_true]
    exact List.filter_congr fun a _ => by simp [pPanic, he]

theorem pFilter_clearIgnore (opts : TestOpts) (t : TestDescAndFn) :
    pFilter opts (clearIgnore t) = pFilter opts t := rfl

theorem pSkip_clearIgnore (opts : TestOpts) (t : TestDescAndFn) :
    pSkip opts (clearIgnore t) = pSkip opts t := rfl

theorem pPanic_clearIgnore (opts : TestOpts) (t : TestDescAndFn) :
    pPanic opts (clearIgnore t) = pPanic opts t := rfl

theorem clearIgnore_eq_self {t : TestDescAndFn} (h : t.desc.ignore = false) :
    clearIgnore t = t := by
  rcases t with ⟨⟨name, ign, sp, af⟩, fn⟩
  simp only [clearIgnore]
  simp_all

/-- Every member of `filter_tests` satisfies the three retain predicates,
and has a cleared ignore bit when the `run_ignored` policy rewrites it. -/
theorem mem_filter_tests {opts : TestOpts} {tests : List TestDescAndFn}
    {t : TestDescAndFn} (ht : t ∈ filter_tests opts tests) :
    pFilter opts t = true ∧ pSkip opts t = true ∧ pPanic opts t = true ∧
      (opts.run_ignored ≠ RunIgnored.No → t.desc.ignore = false) := by
  unfold filter_tests at ht
  rw [List.mem_insertionSort] at ht
  have memTriple :
      ∀ u : TestDescAndFn,
        u ∈ panicStage opts (skipStage opts (filterStage opts tests)) →
          pFilter opts u = true ∧ pSkip opts u = true ∧
            pPanic opts u = true := by
    intro u hu
    rw [panicStage_eq_filter, List.mem_filter] at hu
    rcases hu with ⟨hu, hPanic⟩
    rw [skipStage, List.mem_filter] at hu
    rcases hu with ⟨hu, hSkip⟩
    rw [filterStage_eq_filter, List.mem_filter] at hu
    exact ⟨hu.2, hSkip, hPanic⟩
  rcases hri : opts.run_ignored with _ | _ | _ <;>
      rw [runIgnoredStage, hri] at ht
  · rcases List.mem_map.1 ht with ⟨u, hu, rfl⟩
    rcases memTriple u hu with ⟨h1, h2, h3⟩
    exact ⟨by rw [pFilter_clearIgnore]; exact h1,
      by rw [pSkip_clearIgnore]; exact h2,
      by rw [pPanic_clearIgnore]; exact h3, fun _ => rfl⟩
  · rcases memTriple t ht with ⟨h1, h2, h3⟩
    exact ⟨h1, h2, h3, fun h => absurd rfl h⟩
  · rcases List.mem_map.1 ht with ⟨u, hu, rfl⟩
    rw [List.mem_filter] at hu
    rcases memTriple u hu.1 with ⟨h1, h2, h3⟩
    exact ⟨by rw [pFilter_clearIgnore]; exact h1,
      by rw [pSkip_clearIgnore]; exact h2,
      by rw [pPanic_clearIgnore]; exact h3, fun _ => rfl⟩

/-- The output of `filter_tests` is sorted by name slice. -/
theorem sorted_filter_tests (opts : TestOpts) (tests : List TestDescAndFn) :
    List.Sorted descNameLe (filter_tests opts tests) :=
  List.sorted_insertionSort descNameLe _

/-- Options used by the counterexample to claim C4: `run_ignored = Only`,
everything else inert. -/
def onlyOpts : TestOpts :=
  { filter := none
    filter_exact := false
    exclude_should_panic := false
    run_ignored := RunIgnored.Only
    run_tests := true
    bench_benchmarks := false
    nocapture := false
    test_threads := none
    skip := [] }

/-- One ignored test entry, as in scenario S1 of the spec. -/
def onlyList : List TestDescAndFn :=
  [{ desc :=
      { name := TestName.StaticTestName "1"
        ignore := true
        should_panic := ShouldPanic.No
        allow_fail := false }
     testfn := TestFn.StaticTestFn { result := Except.ok (), output := [] } }]

/-- Claim C4 fails on the code: with `run_ignored = Only` the first pass
keeps the ignored entry and clears its ignore bit, so the second pass
(which retains only entries with `ignore == true`) drops everything, and
`filter_tests` is not idempotent. -/
theorem filter_tests_not_idempotent_for_only :
    filter_tests onlyOpts (filter_tests onlyOpts onlyList) ≠
      filter_tests onlyOpts onlyList := by
  decide

/-- Claim C4 (amended): `filter_tests` is idempotent under unchanged
options whenever `run_ignored` is `No` or `Yes`; under `Only` the second
application returns the empty list whenever the first returned anything,
because the survivors' ignore bits were cleared. -/
theorem filter_tests_idempotent (opts : TestOpts)
    (tests : List TestDescAndFn) (h : opts.run_ignored ≠ RunIgnored.Only) :
    filter_tests opts (filter_tests opts tests) = filter_tests opts tests := by
  have hmem := fun {t} (ht : t ∈ filter_tests opts tests) =>
    mem_filter_tests ht
  have h1 : filterStage opts (filter_tests opts tests) =
      filter_tests opts tests := by
    rw [filterStage_eq_filter]
    exact List.filter_eq_self.2 fun t ht => (hmem ht).1
  have h2 : skipStage opts (filter_tests opts tests) =
      filter_tests opts tests := by
    unfold skipStage
    exact List.filter_eq_self.2 fun t ht => (hmem ht).2.1
  have h3 : panicStage opts (filter_tests opts tests) =
      filter_tests opts tests := by
    rw [panicStage_eq_filter]
    exact List.filter_eq_self.2 fun t ht => (hmem ht).2.2.1
  have hstage :
      runIgnoredStage opts (filter_tests opts tests) =
        filter_tests opts tests := by
    rcases hri : opts.run_ignored with _ | _ | _
    · simp only [runIgnoredStage, hri]
      have hmap :
          List.map clearIgnore (filter_tests opts tests) =
            List.map id (filter_tests opts tests) :=
        List.map_congr_left fun t ht =>
          clearIgnore_eq_self ((hmem ht).2.2.2 (by rw [hri]; simp))
      rw [hmap, List.map_id]
    · simp only [runIgnoredStage, hri]
    · exact absurd hri h
  conv_lhs => rw [filter_tests]
  rw [h1, h2, h3, hstage, (sorted_filter_tests opts tests).insertionSort_eq]

/-- Witness for the amended claim C4 at a concrete input: with
`run_ignored = No` and the one-element list of scenario S1,
`filter_tests` applied twice equals `filter_tests` applied once. -/
theorem filter_tests_idempotent_witness :
    ({ onlyOpts with run_ignored := RunIgnored.No } : TestOpts).run_ignored ≠
        RunIgnored.Only ∧
      filter_tests { onlyOpts with run_ignored := RunIgnored.No }
          (filter_tests { onlyOpts with run_ignored := RunIgnored.No }
            onlyList) =
        filter_tests { onlyOpts with run_ignored := RunIgnored.No }
          onlyList :=
  ⟨by decide,
   filter_tests_idempotent { onlyOpts with run_ignored := RunIgnored.No }
     onlyList (by decide)⟩



/-- `TEST_WARN_TIMEOUT_S` from the source: the fixed 60-second advisory
deadline installed on the concurrent path. -/
def TEST_WARN_TIMEOUT_S : Nat := 60

/-- `MonitorMsg`: the tuple each executed entry sends on the result
channel. -/
abbrev MonitorMsg := TestDesc × TestResult × List Nat

/-- Rust `f64 as u64`: truncation toward zero, saturating at the `u64`
range (negative values clamp to 0). -/
def f64_as_u64 (q : ℚ) : Nat := min q.floor.toNat (2 ^ 64 - 1)

namespace bench

/-- `bench::benchmark` from `src/src/lib.rs` lines 1792-1852: run the
benchmark body under the panic boundary and send one message.  The `u64`
product `bytes * 1000` wraps on overflow. -/
def benchmark (desc : TestDesc) (nocapture : Bool) (b : BenchBody) :
    MonitorMsg :=
  let test_result :=
    match b.run with
    | .ok (some ns_iter_summ) =>
      let ns_iter := max (f64_as_u64 ns_iter_summ.median) 1
      let mb_s := b.bytes * 1000 % 2 ^ 64 / ns_iter
      TestResult.TrBench { ns_iter_summ := ns_iter_summ, mb_s := mb_s }
    | .ok none =>
      TestResult.TrBench { ns_iter_summ := Summary.new [0], mb_s := 0 }
    | .error _ => TestResult.TrFailed
  (desc, test_result, if nocapture then [] else b.output)

/-- `bench::run_once` applied to a benchmark body: the body runs once in
`Single` mode and its summary is discarded, so the resulting test body
returns iff the benchmark body did not panic. -/
def run_once_body (b : BenchBody) : TestBody :=
  { result :=
      match b.run with
      | .error p => Except.error p
      | .ok _ => Except.ok ()
    output := b.output }

end bench

/-- `convert_benchmarks_to_tests` from `src/src/lib.rs` lines 1449-1479. -/
def convert_benchmarks_to_tests (tests : List TestDescAndFn) :
    List TestDescAndFn :=
  tests.map fun x =>
    let testfn :=
      match x.testfn with
      | .DynBenchFn b => TestFn.DynTestFn (bench.run_once_body b)
      | .StaticBenchFn b => TestFn.DynTestFn (bench.run_once_body b)
      | f => f
    { desc := x.desc, testfn := testfn }

/-- `run_test_inner` from `src/src/lib.rs`: invoke the body once under the
panic boundary with the capture sinks swapped in (empty capture when
`nocapture`), classify with `calc_result`, send one message. -/
def run_test_inner (desc : TestDesc) (nocapture : Bool) (f : TestBody) :
    MonitorMsg :=
  (desc, calc_result desc f.result, if nocapture then [] else f.output)

/-- `run_test` from `src/src/lib.rs` lines 1482-1586.  `panic_abort` is the
platform flag `cfg!(target_arch = "wasm32") && !cfg!(target_os =
"emscripten")` (a platform that cannot unwind). -/
def run_test (opts : TestOpts) (panic_abort : Bool) (force_ignore : Bool)
    (t : TestDescAndFn) : MonitorMsg :=
  let desc := t.desc
  let ignore_because_panic_abort :=
    panic_abort && !(desc.should_panic == ShouldPanic.No)
  if force_ignore || desc.ignore || ignore_because_panic_abort then
    (desc, TestResult.TrIgnored, [])
  else
    match t.testfn with
    | .DynBenchFn b => bench.benchmark desc opts.nocapture b
    | .StaticBenchFn b => bench.benchmark desc opts.nocapture b
    | .DynTestFn f => run_test_inner desc opts.nocapture f
    | .StaticTestFn f => run_test_inner desc opts.nocapture f

/-- The message sent by `run_test` always carries the descriptor it was
given. -/
theorem run_test_fst (opts : TestOpts) (panic_abort force_ignore : Bool)
    (t : TestDescAndFn) :
    (run_test opts panic_abort force_ignore t).1 = t.desc := by
  rcases t with ⟨desc, fn⟩
  by_cases h : (force_ignore || desc.ignore ||
      (panic_abort && !(desc.should_panic == ShouldPanic.No))) = true
  · simp [run_test, h]
  · cases fn <;> simp [run_test, h, bench.benchmark, run_test_inner]

/-- Claim C6: for every entry with `force_ignore` true or `entry.ignore`
true (or, on platforms that cannot unwind, `should_panic != No`),
`run_test` sends exactly the message `(entry, Ignored, empty captured
output)` and returns without invoking the entry's body: the conclusion
holds for every body `fn`, in particular a body that would panic still
yields outcome `Ignored`. -/
theorem run_test_ignored_path (opts : TestOpts)
    (panic_abort force_ignore : Bool) (desc : TestDesc) (fn : TestFn)
    (h : force_ignore = true ∨ desc.ignore = true ∨
      (panic_abort = true ∧ desc.should_panic ≠ ShouldPanic.No)) :
    run_test opts panic_abort force_ignore { desc := desc, testfn := fn } =
      (desc, TestResult.TrIgnored, []) := by
  rcases h with h | h | ⟨h1, h2⟩
  · simp [run_test, h]
  · simp [run_test, h]
  · simp [run_test, h1, h2]

/-- Descriptor of an ignored test entry (scenario S5). -/
def ignoredDesc : TestDesc :=
  { name := TestName.StaticTestName "ig"
    ignore := true
    should_panic := ShouldPanic.No
    allow_fail := false }

/-- A body that would panic if it were ever invoked. -/
def panickingBody : TestBody :=
  { result := Except.error (PanicPayload.strValue "boom"), output := [] }

/-- Witness for claim C6 at a concrete input: an ignored entry whose body
would panic still yields `(entry, Ignored, empty)`. -/
theorem run_test_ignored_path_witness :
    ((false : Bool) = true ∨ ignoredDesc.ignore = true ∨
        ((false : Bool) = true ∧ ignoredDesc.should_panic ≠ ShouldPanic.No)) ∧
      run_test onlyOpts false false
          { desc := ignoredDesc, testfn := TestFn.StaticTestFn panickingBody } =
        (ignoredDesc, TestResult.TrIgnored, []) :=
  ⟨Or.inr (Or.inl (by decide)),
    run_test_ignored_path onlyOpts false false ignoredDesc
      (TestFn.StaticTestFn panickingBody) (Or.inr (Or.inl (by decide)))⟩

/-- Claim C8: through `bench::benchmark`, a body that never invoked `iter`
sends a message with outcome `Bench`, a zero-sample summary and
`mb_s == 0`; a body that panics during sampling sends outcome `Failed`,
not `Bench`; a successful body sends `Bench` with
`mb_s = bytes * 1000 / max(1, median as integer)` (stated below the `u64`
overflow threshold of the product). -/
theorem bench_benchmark_outcomes (desc : TestDesc) (nocapture : Bool)
    (b : BenchBody) :
    (b.run = Except.ok none →
      bench.benchmark desc nocapture b =
        (desc,
          TestResult.TrBench { ns_iter_summ := Summary.new [0], mb_s := 0 },
          if nocapture then [] else b.output)) ∧
      (∀ p, b.run = Except.error p →
        (bench.benchmark desc nocapture b).2.1 = TestResult.TrFailed) ∧
      (∀ s, b.run = Except.ok (some s) → b.bytes * 1000 < 2 ^ 64 →
        (bench.benchmark desc nocapture b).2.1 =
          TestResult.TrBench
            { ns_iter_summ := s
              mb_s := b.bytes * 1000 / max 1 (f64_as_u64 s.median) }) := by
  refine ⟨fun h => ?_, fun p h => ?_, fun s h hlt => ?_⟩
  · simp [bench.benchmark, h]
  · simp [bench.benchmark, h]
  · simp only [bench.benchmark, h]
    rw [Nat.mod_eq_of_lt hlt, Nat.max_comm]

/-- A benchmark body that never calls `iter`. -/
def noIterBody : BenchBody := { bytes := 0, run := Except.ok none, output := [] }

/-- A benchmark body that panics during sampling. -/
def panicBenchBody : BenchBody :=
  { bytes := 0, run := Except.error PanicPayload.otherAny, output := [] }

/-- A benchmark body whose sampling produced the summary of `[2]` with a
`bytes` hint of 8. -/
def okBenchBody : BenchBody :=
  { bytes := 8, run := Except.ok (some (Summary.new [2])), output := [] }

/-- Witness for claim C8 at concrete inputs: all three outcome shapes. -/
theorem bench_benchmark_outcomes_witness :
    bench.benchmark ignoredDesc false noIterBody =
        (ignoredDesc,
          TestResult.TrBench { ns_iter_summ := Summary.new [0], mb_s := 0 },
          []) ∧
      (bench.benchmark ignoredDesc false panicBenchBody).2.1 =
        TestResult.TrFailed ∧
      (bench.benchmark ignoredDesc false okBenchBody).2.1 =
        TestResult.TrBench
          { ns_iter_summ := Summary.new [2]
            mb_s := 8 * 1000 / max 1 (f64_as_u64 (Summary.new [2]).median) } :=
  ⟨(bench_benchmark_outcomes ignoredDesc false noIterBody).1 rfl,
    (bench_benchmark_outcomes ignoredDesc false panicBenchBody).2.1
      PanicPayload.otherAny rfl,
    (bench_benchmark_outcomes ignoredDesc false okBenchBody).2.2
      (Summary.new [2]) rfl (by decide)⟩

/-- One round of measurements of the adaptive sampling loop: the 50 raw
`ns_iter_inner(inner, n)` readings, the 50 raw `ns_iter_inner(inner, 5*n)`
readings, and the wall time `loop_run` of the round, all in nanoseconds.
Wall clocks are external inputs, so they are supplied by an oracle. -/
structure IterRound where
  raw1 : Fin 50 → Nat
  raw5 : Fin 50 → Nat
  loopNs : Nat

/-- The timing oracle for one run of `iter`: the initial single-iteration
reading and the per-round measurements. -/
structure IterOracle where
  nsSingle : Nat
  round : Nat → IterRound

/-- `samples[p] = ns_iter_inner(inner, k) as f64 / k as f64` for one fill
of the 50-element buffer (`f64` values embedded as rationals). -/
def sampleList (raws : Fin 50 → Nat) (k : Nat) : List ℚ :=
  List.ofFn fun i => (raws i : ℚ) / (k : ℚ)

/-- The outer loop of `iter` from `src/src/lib.rs` lines 1734-1778, driven
by the timing oracle.  `n` is a `u64`; `n.checked_mul(10)` is `Some` iff
`n * 10 < 2^64`. -/
def iterLoop (o : IterOracle) (k : Nat) (n : Nat) (totalRun : Nat)
    (hn : 1 ≤ n) : Summary :=
  let rd := o.round k
  let summ := Summary.new (winsorize (sampleList rd.raw1 n) 5)
  let summ5 := Summary.new (winsorize (sampleList rd.raw5 (5 * n)) 5)
  if rd.loopNs > 100000000 ∧ summ.median_abs_dev_pct < 1 ∧
      summ.median - summ5.median < summ5.median_abs_dev then summ5
  else if totalRun + rd.loopNs > 3000000000 then summ5
  else if h10 : n * 10 < 2 ^ 64 then
    iterLoop o (k + 1) (n * 2) (totalRun + rd.loopNs) (by omega)
  else summ5
termination_by 2 ^ 64 - n
decreasing_by omega

/-- `iter` from `src/src/lib.rs` lines 1713-1779: initial calibration
(`n = max(1, 1_000_000 / max(1, ns_single))`) followed by the adaptive
loop. -/
def iter (o : IterOracle) : Summary :=
  let ns_single := o.nsSingle
  let ns_target_total := 1000000
  let n := Max.max 1 (ns_target_total / Max.max 1 ns_single)
  iterLoop o 0 n 0 (le_max_left 1 _)

/-- The iteration count at the start of round `k`: the calibrated initial
value, doubled once per completed round. -/
def nAt (o : IterOracle) : Nat → Nat
  | 0 => Max.max 1 (1000000 / Max.max 1 o.nsSingle)
  | k + 1 => nAt o k * 2

/-- Accumulated wall time of the rounds before round `k`. -/
def totalBefore (o : IterOracle) : Nat → Nat
  | 0 => 0
  | k + 1 => totalBefore o k + (o.round k).loopNs

/-- The summary `summ` computed in round `k`. -/
def summAt (o : IterOracle) (k : Nat) : Summary :=
  Summary.new (winsorize (sampleList (o.round k).raw1 (nAt o k)) 5)

/-- The summary `summ5` computed in round `k`. -/
def summ5At (o : IterOracle) (k : Nat) : Summary :=
  Summary.new (winsorize (sampleList (o.round k).raw5 (5 * nAt o k)) 5)

/-- Stopping rule A at round `k` (converged after at least 100 ms). -/
def stopA (o : IterOracle) (k : Nat) : Prop :=
  (o.round k).loopNs > 100000000 ∧ (summAt o k).median_abs_dev_pct < 1 ∧
    (summAt o k).median - (summ5At o k).median < (summ5At o k).median_abs_dev

/-- Stopping rule B at round `k` (3-second budget exhausted). -/
def stopB (o : IterOracle) (k : Nat) : Prop :=
  totalBefore o k + (o.round k).loopNs > 3000000000

/-- Stopping rule C at round `k` (`n * 10` would overflow a `u64`). -/
def stopC (o : IterOracle) (k : Nat) : Prop := ¬(nAt o k * 10 < 2 ^ 64)

/-- The loop stops in round `k` iff one of the three rules fires. -/
def stopsAt (o : IterOracle) (k : Nat) : Prop :=
  stopA o k ∨ stopB o k ∨ stopC o k

theorem one_le_nAt (o : IterOracle) : ∀ k, 1 ≤ nAt o k
  | 0 => le_max_left 1 _
  | k + 1 => le_trans (one_le_nAt o k) (by simp [nAt]; omega)

theorem iterLoop_first_stop (o : IterOracle) :
    ∀ m k, 2 ^ 64 - nAt o k ≤ m →
      ∃ K, k ≤ K ∧ (∀ j, k ≤ j → j < K → ¬stopsAt o j) ∧ stopsAt o K ∧
        iterLoop o k (nAt o k) (totalBefore o k) (one_le_nAt o k) =
          summ5At o K := by
  intro m
  induction m with
  | zero =>
    intro k hk
    have hC : stopC o k := by
      have h1 := one_le_nAt o k
      intro h10
      omega
    refine ⟨k, le_refl k,
      fun j h1 h2 => absurd (lt_of_le_of_lt h1 h2) (lt_irrefl k),
      Or.inr (Or.inr hC), ?_⟩
    rw [iterLoop]
    split_ifs with h1 h2 h3
    · rfl
    · rfl
    · exact absurd h3 hC
    · rfl
  | succ m ih =>
    intro k hk
    by_cases hA : stopA o k
    · refine ⟨k, le_refl k,
        fun j h1 h2 => absurd (lt_of_le_of_lt h1 h2) (lt_irrefl k),
        Or.inl hA, ?_⟩
      rw [iterLoop]
      split_ifs with h1 h2 h3
      · rfl
      · exact absurd hA h1
      · exact absurd hA h1
      · rfl
    · by_cases hB : stopB o k
      · refine ⟨k, le_refl k,
          fun j h1 h2 => absurd (lt_of_le_of_lt h1 h2) (lt_irrefl k),
          Or.inr (Or.inl hB), ?_⟩
        rw [iterLoop]
        split_ifs with h1 h2 h3
        · rfl
        · rfl
        · exact absurd hB h2
        · rfl
      · by_cases hC : stopC o k
        · refine ⟨k, le_refl k,
            fun j h1 h2 => absurd (lt_of_le_of_lt h1 h2) (lt_irrefl k),
            Or.inr (Or.inr hC), ?_⟩
          rw [iterLoop]
          split_ifs with h1 h2 h3
          · rfl
          · rfl
          · exact absurd h3 hC
          · rfl
        · have hrec : 2 ^ 64 - nAt o (k + 1) ≤ m := by
            have h1 := one_le_nAt o k
            have h10 : nAt o k * 10 < 2 ^ 64 := not_not.1 hC
            have h2 : nAt o (k + 1) = nAt o k * 2 := rfl
            omega
          rcases ih (k + 1) hrec with ⟨K, hK1, hK2, hK3, hK4⟩
          refine ⟨K, le_trans (Nat.le_succ k) hK1, ?_, hK3, ?_⟩
          · intro j h1 h2
            rcases Nat.eq_or_lt_of_le h1 with rfl | h1'
            · exact fun hs => hs.elim hA fun hs' => hs'.elim hB hC
            · exact hK2 j h1' h2
          · rw [iterLoop]
            split_ifs with h1 h2 h3
            · exact absurd h1 hA
            · exact absurd h2 hB
            · exact hK4
            · exact absurd h3 hC

/-- Claim C7: for every timing oracle (hence every total inner callable),
the adaptive `Auto` sampling loop of `iter` terminates at the first round
in which stopping rule A (convergence after 100 ms), B (3-second budget)
or C (`n * 10` would overflow, otherwise `n` doubles) fires, and the
value returned is `summ5`, the summary of the `5n`-iteration batch of
that round. -/
theorem iter_returns_summ5_of_first_stop (o : IterOracle) :
    ∃ K, (∀ j, j < K → ¬stopsAt o j) ∧ stopsAt o K ∧ iter o = summ5At o K := by
  have h := iterLoop_first_stop o (2 ^ 64) 0 (Nat.sub_le _ _)
  rcases h with ⟨K, _, hK2, hK3, hK4⟩
  exact ⟨K, fun j hj => hK2 j (Nat.zero_le j) hj, hK3, hK4⟩

/-- `TestEvent` in the source. -/
inductive TestEvent where
  | TeFiltered (descs : List TestDesc)
  | TeWait (d : TestDesc)
  | TeResult (d : TestDesc) (r : TestResult) (stdout : List Nat)
  | TeTimeout (d : TestDesc)
  | TeFilteredOut (n : Nat)
deriving DecidableEq, Repr

/-- The partition predicate of `run_tests`: `StaticTestFn` and `DynTestFn`
go to the test partition, benchmark functions to the other. -/
def isTestKind : TestFn → Bool
  | .StaticTestFn _ => true
  | .DynTestFn _ => true
  | _ => false

/-- State of the concurrency > 1 loop of `run_tests`: the LIFO `remaining`
list (represented in popping order), the in-flight messages not yet
received (`pending = inflight.length`), and the `running_tests` timeout
table (deadline instants abstracted away; which deadlines have expired is
decided by the schedule). -/
structure ConcState where
  remaining : List TestDescAndFn
  inflight : List MonitorMsg
  table : List TestDesc

/-- `HashMap::insert` on the timeout table: a fresh key is appended, an
existing key only has its deadline replaced. -/
def tableInsert (d : TestDesc) (t : List TestDesc) : List TestDesc :=
  if d ∈ t then t else t ++ [d]

/-- One `get_timed_out_tests` harvest, driven by schedule indices: each
index removes one (expired) entry from the table and emits its `Timeout`
event; indices are taken modulo the table length. -/
def harvestTimedOut : List Nat → List TestDesc → List TestEvent × List TestDesc
  | [], t => ([], t)
  | i :: is, t =>
    match t with
    | [] => harvestTimedOut is []
    | d0 :: ds =>
      let d := (d0 :: ds).getD (i % (d0 :: ds).length) d0
      let rest := harvestTimedOut is ((d0 :: ds).erase d)
      (TestEvent.TeTimeout d :: rest.1, rest.2)

instance : Inhabited TestDesc :=
  ⟨{ name := TestName.StaticTestName ""
     ignore := false
     should_panic := ShouldPanic.No
     allow_fail := false }⟩

instance : Inhabited TestResult := ⟨TestResult.TrOk⟩

/-- Admission phase of one outer iteration: the entries popped while
`pending < concurrency` (`remaining` is kept in popping order, so these
are the first `K - pending` entries). -/
def admittedOf (K : Nat) (s : ConcState) : List TestDescAndFn :=
  s.remaining.take (K - s.inflight.length)

/-- The in-flight messages after the admission phase: each admitted entry
is started with `Concurrent::Yes` and will send its `run_test` message. -/
def inflightAfterAdmit (opts : TestOpts) (panic_abort : Bool) (K : Nat)
    (s : ConcState) : List MonitorMsg :=
  s.inflight ++
    (admittedOf K s).map (run_test opts panic_abort (!opts.run_tests))

/-- The timeout table after the admission phase: each admitted descriptor
is inserted with its `now + WARN_TIMEOUT` deadline. -/
def tableAfterAdmit (K : Nat) (s : ConcState) : List TestDesc :=
  (admittedOf K s).foldl (fun tb t => tableInsert t.desc tb) s.table

/-- The message the channel delivers in this iteration: the schedule picks
which of the in-flight workers finishes first. -/
def deliveredOf (opts : TestOpts) (panic_abort : Bool) (K : Nat)
    (sched : List (List Nat × Nat)) (s : ConcState) : MonitorMsg :=
  (inflightAfterAdmit opts panic_abort K s).getD
    ((sched.headD ([], 0)).2 %
      (inflightAfterAdmit opts panic_abort K s).length) default

/-- The loop state after one outer iteration: the delivered test is no
longer in flight and its table entry (if not already harvested) is
removed. -/
def nextState (opts : TestOpts) (panic_abort : Bool) (K : Nat)
    (sched : List (List Nat × Nat)) (s : ConcState) : ConcState :=
  { remaining := s.remaining.drop (K - s.inflight.length)
    inflight :=
      (inflightAfterAdmit opts panic_abort K s).eraseIdx
        ((sched.headD ([], 0)).2 %
          (inflightAfterAdmit opts panic_abort K s).length)
    table :=
      (harvestTimedOut (sched.headD ([], 0)).1 (tableAfterAdmit K s)).2.erase
        (deliveredOf opts panic_abort K sched s).1 }

/-- The concurrency > 1 loop of `run_tests` (`src/src/lib.rs` lines
1200-1239).  Each outer iteration admits up to `K - pending` entries
(inserting their deadline and emitting `Wait`), then waits: the schedule
head supplies which table entries are harvested as timed out (emitting
`Timeout`) and which in-flight message the channel delivers next
(emitting `Result` and removing the entry from the table).  When nothing
is in flight and nothing can be admitted the real loop would block in
`recv()` forever; the model returns the events so far.  `fuel` bounds the
number of iterations; one delivery happens per iteration, so
`remaining.length + inflight.length` iterations complete the loop. -/
def concLoop (opts : TestOpts) (panic_abort : Bool) (K : Nat) :
    Nat → List (List Nat × Nat) → ConcState → List TestEvent
  | 0, _, _ => []
  | fuel + 1, sched, s =>
    if s.remaining.isEmpty && s.inflight.isEmpty then []
    else if (inflightAfterAdmit opts panic_abort K s).isEmpty then
      ((admittedOf K s).map fun t => TestEvent.TeWait t.desc) ++
        (harvestTimedOut (sched.headD ([], 0)).1 (tableAfterAdmit K s)).1
    else
      ((admittedOf K s).map fun t => TestEvent.TeWait t.desc) ++
        (harvestTimedOut (sched.headD ([], 0)).1 (tableAfterAdmit K s)).1 ++
        TestEvent.TeResult (deliveredOf opts panic_abort K sched s).1
            (deliveredOf opts panic_abort K sched s).2.1
            (deliveredOf opts panic_abort K sched s).2.2 ::
          concLoop opts panic_abort K fuel sched.tail
            (nextState opts panic_abort K sched s)

/-- The serial execution of a list of entries (`run_tests` lines 1191-1198
for the concurrency == 1 path, lines 1242-1250 for the benchmark phase):
pop each entry in order, emit `Wait`, run it synchronously, receive its
message, emit `Result`. -/
def serialPhase (opts : TestOpts) (panic_abort : Bool) (force_ignore : Bool)
    (l : List TestDescAndFn) : List TestEvent :=
  l.flatMap fun test =>
    let m := run_test opts panic_abort force_ignore test
    [TestEvent.TeWait test.desc, TestEvent.TeResult m.1 m.2.1 m.2.2]

/-- The padding rewrite of `run_tests` lines 1157-1165. -/
def applyPadding (t : TestDescAndFn) : TestDescAndFn :=
  { t with desc :=
      { t.desc with name := t.desc.name.with_padding t.testfn.padding } }

/-- The filtered list `run_tests` operates on (lines 1152-1165): filter,
optional benchmark-to-test conversion, padding rewrite. -/
def filteredForRun (opts : TestOpts) (tests : List TestDescAndFn) :
    List TestDescAndFn :=
  let filtered := filter_tests opts tests
  let filtered :=
    if !opts.bench_benchmarks then convert_benchmarks_to_tests filtered
    else filtered
  filtered.map applyPadding

/-- `run_tests` from `src/src/lib.rs` lines 1104-1252, as the event trace
delivered to the callback.  `panic_abort` is the platform flag,
`default_concurrency` stands for `get_concurrency()`, and `sched`/`fuel`
drive the nondeterminism of the concurrent path. -/
def run_tests (opts : TestOpts) (tests : List TestDescAndFn)
    (panic_abort : Bool) (default_concurrency : Nat)
    (sched : List (List Nat × Nat)) (fuel : Nat) : List TestEvent :=
  let tests_len := tests.length
  let filtered := filteredForRun opts tests
  let filtered_out := tests_len - filtered.length
  let filtered_descs := filtered.map (·.desc)
  let parts := filtered.partition fun e => isTestKind e.testfn
  let concurrency := opts.test_threads.getD default_concurrency
  let mainEvs :=
    if concurrency = 1 then
      serialPhase opts panic_abort (!opts.run_tests) parts.1
    else
      concLoop opts panic_abort concurrency fuel sched
        { remaining := parts.1, inflight := [], table := [] }
  let benchEvs :=
    if opts.bench_benchmarks then serialPhase opts panic_abort false parts.2
    else []
  TestEvent.TeFilteredOut filtered_out ::
    TestEvent.TeFiltered filtered_descs :: (mainEvs ++ benchEvs)

/-- `ConsoleTestState` in the source, restricted to the pure run state
(the log file handle drives IO only). -/
structure ConsoleTestState where
  total : Nat
  passed : Nat
  failed : Nat
  ignored : Nat
  allowed_fail : Nat
  filtered_out : Nat
  measured : Nat
  metrics : List (String × ℚ × ℚ)
  failures : List (TestDesc × List Nat)
  not_failures : List (TestDesc × List Nat)

/-- `ConsoleTestState::new`: all counters zero. -/
def initConsoleState : ConsoleTestState :=
  { total := 0, passed := 0, failed := 0, ignored := 0, allowed_fail := 0
    filtered_out := 0, measured := 0, metrics := [], failures := []
    not_failures := [] }

/-- `MetricMap::insert_metric`: a `BTreeMap` insert keyed by name
(replacing any previous entry for the name). -/
def insert_metric (metrics : List (String × ℚ × ℚ)) (name : String)
    (value noise : ℚ) : List (String × ℚ × ℚ) :=
  (metrics.filter fun kv => !(kv.1 == name)) ++ [(name, value, noise)]

/-- UTF-8 bytes appended to a failure's captured output, char-wise. -/
def strBytes (s : String) : List Nat := s.data.map Char.toNat

/-- The event dispatcher: the `callback` closure of `run_tests_console`
(`src/src/lib.rs` lines 900-950), minus the formatter and log-file IO. -/
def dispatchEvent (st : ConsoleTestState) (event : TestEvent) :
    ConsoleTestState :=
  match event with
  | .TeFiltered filtered_tests => { st with total := filtered_tests.length }
  | .TeFilteredOut filtered_out => { st with filtered_out := filtered_out }
  | .TeWait _ => st
  | .TeTimeout _ => st
  | .TeResult test result stdout =>
    match result with
    | .TrOk =>
      { st with passed := st.passed + 1
                not_failures := st.not_failures ++ [(test, stdout)] }
    | .TrIgnored => { st with ignored := st.ignored + 1 }
    | .TrAllowedFail => { st with allowed_fail := st.allowed_fail + 1 }
    | .TrBench bs =>
      { st with
          metrics := insert_metric st.metrics test.name.as_slice
            bs.ns_iter_summ.median (bs.ns_iter_summ.max - bs.ns_iter_summ.min)
          measured := st.measured + 1 }
    | .TrFailed =>
      { st with failed := st.failed + 1
                failures := st.failures ++ [(test, stdout)] }
    | .TrFailedMsg msg =>
      { st with failed := st.failed + 1
                failures :=
                  st.failures ++ [(test, stdout ++ strBytes ("note: " ++ msg))] }

/-- `ConsoleTestState::current_test_count`. -/
def current_test_count (st : ConsoleTestState) : Nat :=
  st.passed + st.failed + st.ignored + st.measured + st.allowed_fail

theorem serialPhase_no_timeout (opts : TestOpts) (pa fi : Bool)
    (d : TestDesc) (l : List TestDescAndFn) :
    TestEvent.TeTimeout d ∉ serialPhase opts pa fi l := by
  simp only [serialPhase, List.mem_flatMap]
  rintro ⟨t, _, hmem⟩
  simp at hmem

/-- Claim C10: on the serial (`concurrency == 1`) path of `run_tests` no
`Timeout` event is ever emitted, whatever the bodies do: the timeout
table is only built on the `concurrency > 1` path, and the benchmark
phase also never emits `Timeout`. -/
theorem run_tests_no_timeout_when_serial (opts : TestOpts)
    (tests : List TestDescAndFn) (pa : Bool) (defK : Nat)
    (sched : List (List Nat × Nat)) (fuel : Nat)
    (h : opts.test_threads.getD defK = 1) (d : TestDesc) :
    TestEvent.TeTimeout d ∉ run_tests opts tests pa defK sched fuel := by
  intro hmem
  simp only [run_tests, h, if_pos, List.mem_cons] at hmem
  rcases hmem with h' | h' | h'
  · exact TestEvent.noConfusion h'
  · exact TestEvent.noConfusion h'
  · rw [List.mem_append] at h'
    rcases h' with h' | h'
    · exact serialPhase_no_timeout _ _ _ _ _ h'
    · by_cases hb : opts.bench_benchmarks = true
      · rw [if_pos hb] at h'
        exact serialPhase_no_timeout _ _ _ _ _ h'
      · rw [if_neg hb] at h'
        exact List.not_mem_nil _ h'

/-- Witness for claim C10 at a concrete input: a serial run with one test
and one benchmark entry emits no `Timeout`. -/
theorem run_tests_no_timeout_when_serial_witness :
    ({ onlyOpts with test_threads := some 1 } : TestOpts).test_threads.getD 4 =
        1 ∧
      TestEvent.TeTimeout ignoredDesc ∉
        run_tests { onlyOpts with test_threads := some 1 } onlyList false 4 []
          2 :=
  ⟨rfl, run_tests_no_timeout_when_serial
    { onlyOpts with test_threads := some 1 } onlyList false 4 [] 2 rfl
    ignoredDesc⟩

/-- The names, in order, carried by the `Result` events of a trace. -/
def resultNames (evs : List TestEvent) : List String :=
  evs.filterMap fun e =>
    match e with
    | .TeResult d _ _ => some d.name.as_slice
    | _ => none

/-- The name slices of a list of entries, in order. -/
def nameSlices (l : List TestDescAndFn) : List String :=
  l.map fun t => t.desc.name.as_slice

theorem resultNames_serialPhase (opts : TestOpts) (pa fi : Bool) :
    ∀ l, resultNames (serialPhase opts pa fi l) = nameSlices l := by
  intro l
  induction l with
  | nil => rfl
  | cons t ts ih =>
    simp only [serialPhase, List.flatMap_cons, resultNames,
      List.filterMap_append, List.filterMap_cons, List.filterMap_nil] at ih ⊢
    rw [run_test_fst]
    simpa [nameSlices] using ih

theorem pairwise_descNameLe_convert {l : List TestDescAndFn}
    (h : List.Pairwise descNameLe l) :
    List.Pairwise descNameLe (convert_benchmarks_to_tests l) := by
  unfold convert_benchmarks_to_tests
  rw [List.pairwise_map]
  exact h.imp fun hab => hab

/-- The name slices of the list `run_tests` operates on are sorted. -/
theorem sorted_nameSlices_filteredForRun (opts : TestOpts)
    (tests : List TestDescAndFn) :
    List.Sorted strLe (nameSlices (filteredForRun opts tests)) := by
  have h0 : List.Pairwise descNameLe (filter_tests opts tests) :=
    sorted_filter_tests opts tests
  have h1 :
      List.Pairwise descNameLe
        (if !opts.bench_benchmarks then
          convert_benchmarks_to_tests (filter_tests opts tests)
        else filter_tests opts tests) := by
    split
    · exact pairwise_descNameLe_convert h0
    · exact h0
  unfold filteredForRun nameSlices List.Sorted
  rw [List.map_map, List.pairwise_map]
  exact h1.imp fun hab => hab

/-- A sorted name list stays sorted on any filtered sublist. -/
theorem sorted_nameSlices_filter (p : TestDescAndFn → Bool)
    {l : List TestDescAndFn} (h : List.Sorted strLe (nameSlices l)) :
    List.Sorted strLe (nameSlices (l.filter p)) := by
  unfold nameSlices List.Sorted at h ⊢
  rw [List.pairwise_map] at h ⊢
  exact List.Pairwise.sublist (List.filter_sublist l) h

/-- Claim C5 (amended): on a `test_threads == 1` run the `Result` events
list the test partition first, in sorted (byte-wise ascending) name
order, then the benchmark partition, also in sorted name order; when
`bench_benchmarks` is false the whole `Result` sequence is sorted. -/
theorem run_tests_serial_result_order (opts : TestOpts)
    (tests : List TestDescAndFn) (pa : Bool) (defK : Nat)
    (sched : List (List Nat × Nat)) (fuel : Nat)
    (h : opts.test_threads.getD defK = 1) :
    resultNames (run_tests opts tests pa defK sched fuel) =
        nameSlices
            ((filteredForRun opts tests).filter fun e => isTestKind e.testfn) ++
          (if opts.bench_benchmarks then
            nameSlices
              ((filteredForRun opts tests).filter fun e => !isTestKind e.testfn)
          else []) ∧
      List.Sorted strLe
        (nameSlices
          ((filteredForRun opts tests).filter fun e => isTestKind e.testfn)) ∧
      List.Sorted strLe
        (nameSlices
          ((filteredForRun opts tests).filter fun e => !isTestKind e.testfn)) ∧
      (opts.bench_benchmarks = false →
        List.Sorted strLe
          (resultNames (run_tests opts tests pa defK sched fuel))) := by
  have hsorted := sorted_nameSlices_filteredForRun opts tests
  have heq :
      resultNames (run_tests opts tests pa defK sched fuel) =
        nameSlices
            ((filteredForRun opts tests).filter fun e => isTestKind e.testfn) ++
          (if opts.bench_benchmarks then
            nameSlices
              ((filteredForRun opts tests).filter fun e =>
                !isTestKind e.testfn)
          else []) := by
    have hskip :
        ∀ n ds evs,
          resultNames
              (TestEvent.TeFilteredOut n :: TestEvent.TeFiltered ds :: evs) =
            resultNames evs := by
      intro n ds evs
      simp [resultNames]
    have happ :
        ∀ a b, resultNames (a ++ b) = resultNames a ++ resultNames b := by
      intro a b
      simp [resultNames, List.filterMap_append]
    simp only [run_tests, h, if_pos, List.partition_eq_filter_filter,
      Function.comp]
    rw [hskip, happ, resultNames_serialPhase]
    congr 1
    by_cases hb : opts.bench_benchmarks = true
    · rw [if_pos hb, if_pos hb, resultNames_serialPhase]
      rfl
    · rw [if_neg hb, if_neg hb]
      rfl
  refine ⟨heq, sorted_nameSlices_filter _ hsorted,
    sorted_nameSlices_filter _ hsorted, fun hb => ?_⟩
  rw [heq, hb]
  simpa using sorted_nameSlices_filter (fun e => isTestKind e.testfn) hsorted

/-- Witness for claim C5 (amended) at a concrete input. -/
theorem run_tests_serial_result_order_witness :
    ({ onlyOpts with test_threads := some 1 } : TestOpts).test_threads.getD 4 =
        1 ∧
      resultNames
          (run_tests { onlyOpts with test_threads := some 1 } onlyList false 4
            [] 2) =
        nameSlices
            ((filteredForRun { onlyOpts with test_threads := some 1 }
                onlyList).filter
              fun e => isTestKind e.testfn) ++
          (if ({ onlyOpts with test_threads := some 1 } : TestOpts).bench_benchmarks
          then
            nameSlices
              ((filteredForRun { onlyOpts with test_threads := some 1 }
                  onlyList).filter
                fun e => !isTestKind e.testfn)
          else []) :=
  ⟨rfl,
    (run_tests_serial_result_order { onlyOpts with test_threads := some 1 }
      onlyList false 4 [] 2 rfl).1⟩

/-- Whether an event mentions descriptor `d`. -/
def mentionsDesc (d : TestDesc) : TestEvent → Bool
  | .TeWait d' => d' == d
  | .TeResult d' _ _ => d' == d
  | .TeTimeout d' => d' == d
  | _ => false

/-- The subsequence of a trace consisting of the events of descriptor
`d`. -/
def projDesc (d : TestDesc) (evs : List TestEvent) : List TestEvent :=
  evs.filter (mentionsDesc d)

theorem projDesc_append (d : TestDesc) (a b : List TestEvent) :
    projDesc d (a ++ b) = projDesc d a ++ projDesc d b :=
  List.filter_append a b

theorem mem_tableInsert {x d : TestDesc} {t : List TestDesc} :
    x ∈ tableInsert d t ↔ x ∈ t ∨ x = d := by
  unfold tableInsert
  split
  · rename_i h
    constructor
    · exact Or.inl
    · rintro (hx | rfl)
      · exact hx
      · exact h
  · simp

theorem nodup_tableInsert {d : TestDesc} {t : List TestDesc} (h : t.Nodup) :
    (tableInsert d t).Nodup := by
  unfold tableInsert
  split
  · exact h
  · rename_i hd
    simp [List.nodup_append, h, hd]

theorem mem_foldl_tableInsert :
    ∀ (l : List TestDescAndFn) (t0 : List TestDesc) (x : TestDesc),
      (x ∈ l.foldl (fun tb u => tableInsert u.desc tb) t0 ↔
        x ∈ t0 ∨ ∃ u ∈ l, u.desc = x) := by
  intro l
  induction l with
  | nil => simp
  | cons u us ih =>
    intro t0 x
    rw [List.foldl_cons, ih, mem_tableInsert]
    constructor
    · rintro ((hx | rfl) | ⟨v, hv, rfl⟩)
      · exact Or.inl hx
      · exact Or.inr ⟨u, by simp⟩
      · exact Or.inr ⟨v, by simp [hv]⟩
    · rintro (hx | ⟨v, hv, rfl⟩)
      · exact Or.inl (Or.inl hx)
      · rcases List.mem_cons.1 hv with rfl | hv'
        · exact Or.inl (Or.inr rfl)
        · exact Or.inr ⟨v, hv', rfl⟩

theorem nodup_foldl_tableInsert :
    ∀ (l : List TestDescAndFn) (t0 : List TestDesc), t0.Nodup →
      (l.foldl (fun tb u => tableInsert u.desc tb) t0).Nodup := by
  intro l
  induction l with
  | nil => exact fun t0 h => h
  | cons u us ih => exact fun t0 h => ih _ (nodup_tableInsert h)

theorem getD_eq_getElem {α : Type} (l : List α) (i : Nat) (dflt : α)
    (h : i < l.length) : l.getD i dflt = l[i] := by
  rw [List.getD_eq_getElem?_getD, List.getElem?_eq_getElem h, Option.getD_some]

theorem list_decomp_at {α : Type} (l : List α) (i : Nat) (h : i < l.length) :
    l = l.take i ++ l[i] :: l.drop (i + 1) := by
  conv_lhs => rw [← List.take_append_drop i l]
  rw [List.drop_eq_getElem_cons h]

theorem countP_eraseIdx {α : Type} (p : α → Bool) (l : List α) (i : Nat)
    (h : i < l.length) :
    l.countP p = (l.eraseIdx i).countP p + (if p l[i] then 1 else 0) := by
  rw [List.eraseIdx_eq_take_drop_succ]
  conv_lhs => rw [list_decomp_at l i h]
  rw [List.countP_append, List.countP_cons, List.countP_append]
  omega

theorem mem_eraseIdx_of_ne {α : Type} {l : List α} {i : Nat}
    (h : i < l.length) {x : α} (hx : x ∈ l) (hne : x ≠ l[i]) :
    x ∈ l.eraseIdx i := by
  rw [List.eraseIdx_eq_take_drop_succ]
  conv at hx => rw [list_decomp_at l i h]
  rw [List.mem_append] at hx ⊢
  rcases hx with hx | hx
  · exact Or.inl hx
  · rcases List.mem_cons.1 hx with rfl | hx'
    · exact absurd rfl hne
    · exact Or.inr hx'

theorem map_eraseIdx {α β : Type} (f : α → β) (l : List α) (i : Nat) :
    (l.eraseIdx i).map f = (l.map f).eraseIdx i := by
  rw [List.eraseIdx_eq_take_drop_succ, List.eraseIdx_eq_take_drop_succ,
    List.map_append, List.map_take, List.map_drop]

theorem projDesc_waitEvs (d : TestDesc) :
    ∀ l : List TestDescAndFn,
      projDesc d (l.map fun t => TestEvent.TeWait t.desc) =
        List.replicate (l.countP fun t => t.desc == d)
          (TestEvent.TeWait d) := by
  intro l
  induction l with
  | nil => rfl
  | cons t ts ih =>
    by_cases hd : t.desc = d
    · simp [projDesc, mentionsDesc, hd, List.countP_cons, List.filter_cons,
        List.replicate_succ] at ih ⊢
      exact ih
    · simp [projDesc, mentionsDesc, hd, List.countP_cons, List.filter_cons]
        at ih ⊢
      exact ih

theorem countP_run_test_map (opts : TestOpts) (pa fi : Bool) (d : TestDesc)
    (l : List TestDescAndFn) :
    ((l.map (run_test opts pa fi)).countP fun m => m.1 == d) =
      l.countP fun t => t.desc == d := by
  rw [List.countP_map]
  exact List.countP_congr fun t _ => by simp [Function.comp, run_test_fst]

theorem harvest_spec (d : TestDesc) :
    ∀ (hs : List Nat) (t : List TestDesc), t.Nodup →
      ((harvestTimedOut hs t).2.Sublist t ∧
        (d ∉ t → projDesc d (harvestTimedOut hs t).1 = [] ∧
          d ∉ (harvestTimedOut hs t).2) ∧
        (d ∈ t →
          (projDesc d (harvestTimedOut hs t).1 = [] ∧
            d ∈ (harvestTimedOut hs t).2) ∨
          (projDesc d (harvestTimedOut hs t).1 = [TestEvent.TeTimeout d] ∧
            d ∉ (harvestTimedOut hs t).2))) := by
  intro hs
  induction hs with
  | nil =>
    intro t ht
    refine ⟨List.Sublist.refl t, fun hd => ⟨rfl, hd⟩, fun hd => Or.inl ⟨rfl, hd⟩⟩
  | cons i is ih =>
    intro t ht
    match t with
    | [] =>
      have := ih [] ht
      simpa [harvestTimedOut] using this
    | d0 :: ds =>
      set tl := d0 :: ds with htl
      have hlen : i % tl.length < tl.length :=
        Nat.mod_lt _ (by simp [htl])
      have hddmem : tl.getD (i % tl.length) d0 ∈ tl := by
        rw [getD_eq_getElem _ _ _ hlen]
        exact List.getElem_mem hlen
      set dd := tl.getD (i % tl.length) d0 with hdd
      have herase : (tl.erase dd).Sublist tl := List.erase_sublist dd tl
      have hnd' : (tl.erase dd).Nodup := ht.erase dd
      rcases ih (tl.erase dd) hnd' with ⟨ih1, ih2, ih3⟩
      have hunf :
          harvestTimedOut (i :: is) tl =
            (TestEvent.TeTimeout dd :: (harvestTimedOut is (tl.erase dd)).1,
              (harvestTimedOut is (tl.erase dd)).2) := rfl
      rw [hunf]
      refine ⟨ih1.trans herase, ?_, ?_⟩
      · intro hd
        have hne : dd ≠ d := fun h => hd (h ▸ hddmem)
        have hd' : d ∉ tl.erase dd := fun h => hd (herase.mem h)
        rcases ih2 hd' with ⟨hproj, hmem⟩
        refine ⟨?_, hmem⟩
        have hstep :
            projDesc d
                (TestEvent.TeTimeout dd ::
                  (harvestTimedOut is (tl.erase dd)).1) =
              projDesc d (harvestTimedOut is (tl.erase dd)).1 := by
          simp [projDesc, List.filter_cons, mentionsDesc, hne]
        rw [hstep, hproj]
      · intro hd
        by_cases hcase : dd = d
        · subst hcase
          have hd' : dd ∉ tl.erase dd := ht.not_mem_erase
          rcases ih2 hd' with ⟨hproj, hmem⟩
          refine Or.inr ⟨?_, hmem⟩
          have hstep :
              projDesc dd
                  (TestEvent.TeTimeout dd ::
                    (harvestTimedOut is (tl.erase dd)).1) =
                TestEvent.TeTimeout dd ::
                  projDesc dd (harvestTimedOut is (tl.erase dd)).1 := by
            simp [projDesc, List.filter_cons, mentionsDesc]
          rw [hstep, hproj]
        · have hd' : d ∈ tl.erase dd :=
            (List.Nodup.mem_erase_iff ht).2 ⟨fun h => hcase h.symm, hd⟩
          have hproj_cons :
              projDesc d
                  (TestEvent.TeTimeout dd ::
                    (harvestTimedOut is (tl.erase dd)).1) =
                projDesc d (harvestTimedOut is (tl.erase dd)).1 := by
            simp [projDesc, List.filter_cons, mentionsDesc, hcase]
          rcases ih3 hd' with ⟨hproj, hmem⟩ | ⟨hproj, hmem⟩
          · exact Or.inl ⟨by rw [hproj_cons, hproj], hmem⟩
          · exact Or.inr ⟨by rw [hproj_cons, hproj], hmem⟩

theorem projDesc_result_cons (d : TestDesc) (mm : MonitorMsg)
    (rest : List TestEvent) :
    projDesc d (TestEvent.TeResult mm.1 mm.2.1 mm.2.2 :: rest) =
      (if mm.1 = d then [TestEvent.TeResult mm.1 mm.2.1 mm.2.2] else []) ++
        projDesc d rest := by
  by_cases h : mm.1 = d <;> simp [projDesc, List.filter_cons, mentionsDesc, h]

/-- Trace discipline of the concurrent loop, by induction on the fuel: a
descriptor still in `remaining` contributes `Wait`, then `Timeout`s, then
one `Result`; one in flight and still in the table contributes
`Timeout`s then its `Result`; one in flight but already harvested
contributes just its `Result`; one not scheduled at all contributes
nothing. -/
theorem concLoop_proj (opts : TestOpts) (pa : Bool) (K : Nat) (d : TestDesc)
    (hK : 1 ≤ K) :
    ∀ (fuel : Nat) (sched : List (List Nat × Nat)) (s : ConcState),
      s.remaining.length + s.inflight.length ≤ fuel →
      s.table.Nodup →
      (∀ x ∈ s.table, x ∈ s.inflight.map (fun mm => mm.1)) →
      (s.remaining.countP fun t => t.desc == d) +
          (s.inflight.countP fun mm => mm.1 == d) ≤ 1 →
      (((s.remaining.countP fun t => t.desc == d) = 1 →
          ∃ k r o, projDesc d (concLoop opts pa K fuel sched s) =
            TestEvent.TeWait d ::
              (List.replicate k (TestEvent.TeTimeout d) ++
                [TestEvent.TeResult d r o])) ∧
        ((s.inflight.countP fun mm => mm.1 == d) = 1 → d ∈ s.table →
          ∃ k r o, projDesc d (concLoop opts pa K fuel sched s) =
            List.replicate k (TestEvent.TeTimeout d) ++
              [TestEvent.TeResult d r o]) ∧
        ((s.inflight.countP fun mm => mm.1 == d) = 1 → d ∉ s.table →
          ∃ r o, projDesc d (concLoop opts pa K fuel sched s) =
            [TestEvent.TeResult d r o]) ∧
        ((s.remaining.countP fun t => t.desc == d) = 0 →
          (s.inflight.countP fun mm => mm.1 == d) = 0 →
          projDesc d (concLoop opts pa K fuel sched s) = [])) := by
  intro fuel
  induction fuel with
  | zero =>
    intro sched s hf hnd hsub hcnt
    have h1 : s.remaining = [] := List.length_eq_zero.1 (by omega)
    have h2 : s.inflight = [] := List.length_eq_zero.1 (by omega)
    refine ⟨?_, ?_, ?_, fun _ _ => rfl⟩
    · intro hrc
      rw [h1] at hrc
      simp at hrc
    · intro hic _
      rw [h2] at hic
      simp at hic
    · intro hic _
      rw [h2] at hic
      simp at hic
  | succ fuel ih =>
    intro sched s hf hnd hsub hcnt
    by_cases hstop : (s.remaining.isEmpty && s.inflight.isEmpty) = true
    · rw [Bool.and_eq_true, List.isEmpty_iff, List.isEmpty_iff] at hstop
      have hloop : concLoop opts pa K (fuel + 1) sched s = [] := by
        rw [concLoop, if_pos (by simp [hstop.1, hstop.2])]
      refine ⟨?_, ?_, ?_, fun _ _ => by rw [hloop]; rfl⟩
      · intro hrc
        rw [hstop.1] at hrc
        simp at hrc
      · intro hic _
        rw [hstop.2] at hic
        simp at hic
      · intro hic _
        rw [hstop.2] at hic
        simp at hic
    · by_cases hi : (inflightAfterAdmit opts pa K s).isEmpty = true
      · exfalso
        rw [List.isEmpty_iff] at hi
        unfold inflightAfterAdmit at hi
        rcases List.append_eq_nil.1 hi with ⟨hinf, hadm⟩
        rw [List.map_eq_nil_iff] at hadm
        unfold admittedOf at hadm
        rw [hinf] at hadm
        simp only [List.length_nil, Nat.sub_zero] at hadm
        rcases List.take_eq_nil_iff.1 hadm with h | h
        · omega
        · rw [h, hinf] at hstop
          simp at hstop
      · -- main iteration
        have hi' : ¬((inflightAfterAdmit opts pa K s).isEmpty = true) := by
          simp [hi]
        have hloop : concLoop opts pa K (fuel + 1) sched s =
            ((admittedOf K s).map fun t => TestEvent.TeWait t.desc) ++
              (harvestTimedOut (sched.headD ([], 0)).1
                  (tableAfterAdmit K s)).1 ++
              TestEvent.TeResult (deliveredOf opts pa K sched s).1
                  (deliveredOf opts pa K sched s).2.1
                  (deliveredOf opts pa K sched s).2.2 ::
                concLoop opts pa K fuel sched.tail
                  (nextState opts pa K sched s) := by
          rw [concLoop, if_neg hstop, if_neg hi']
        have hne1 : inflightAfterAdmit opts pa K s ≠ [] := by
          intro h
          rw [h] at hi'
          simp at hi'
        have hlen1 : 0 < (inflightAfterAdmit opts pa K s).length :=
          List.length_pos.2 hne1
        have hidx : (sched.headD ([], 0)).2 %
            (inflightAfterAdmit opts pa K s).length <
            (inflightAfterAdmit opts pa K s).length := Nat.mod_lt _ hlen1
        have hmdef : deliveredOf opts pa K sched s =
            (inflightAfterAdmit opts pa K s)[(sched.headD ([], 0)).2 %
              (inflightAfterAdmit opts pa K s).length] := by
          unfold deliveredOf
          exact getD_eq_getElem _ _ _ hidx
        have hmmem : deliveredOf opts pa K sched s ∈
            inflightAfterAdmit opts pa K s := by
          rw [hmdef]
          exact List.getElem_mem hidx
        have hic1 : ((inflightAfterAdmit opts pa K s).countP
              fun mm => mm.1 == d) =
            (s.inflight.countP fun mm => mm.1 == d) +
              ((admittedOf K s).countP fun t => t.desc == d) := by
          unfold inflightAfterAdmit
          rw [List.countP_append, countP_run_test_map]
        have hsplitR : (s.remaining.countP fun t => t.desc == d) =
            ((admittedOf K s).countP fun t => t.desc == d) +
              ((s.remaining.drop (K - s.inflight.length)).countP
                fun t => t.desc == d) := by
          unfold admittedOf
          conv_lhs =>
            rw [← List.take_append_drop (K - s.inflight.length) s.remaining]
          rw [List.countP_append]
        have hicE_base := countP_eraseIdx (fun mm => mm.1 == d)
          (inflightAfterAdmit opts pa K s) _ hidx
        rw [← hmdef] at hicE_base
        have htbl1nd : (tableAfterAdmit K s).Nodup :=
          nodup_foldl_tableInsert _ _ hnd
        rcases harvest_spec d (sched.headD ([], 0)).1 (tableAfterAdmit K s)
            htbl1nd with ⟨hh1, hh2, hh3⟩
        have hh2nd : (harvestTimedOut (sched.headD ([], 0)).1
            (tableAfterAdmit K s)).2.Nodup := List.Nodup.sublist hh1 htbl1nd
        have htblmem : ∀ x : TestDesc, (x ∈ tableAfterAdmit K s ↔
            x ∈ s.table ∨ ∃ u ∈ admittedOf K s, u.desc = x) :=
          fun x => mem_foldl_tableInsert _ _ x
        have hs2rem : (nextState opts pa K sched s).remaining =
            s.remaining.drop (K - s.inflight.length) := rfl
        have hs2inf : (nextState opts pa K sched s).inflight =
            (inflightAfterAdmit opts pa K s).eraseIdx
              ((sched.headD ([], 0)).2 %
                (inflightAfterAdmit opts pa K s).length) := rfl
        have hs2tbl : (nextState opts pa K sched s).table =
            (harvestTimedOut (sched.headD ([], 0)).1
                (tableAfterAdmit K s)).2.erase
              (deliveredOf opts pa K sched s).1 := rfl
        have hlen_take := List.length_take (K - s.inflight.length) s.remaining
        have hlen_adm1 : (admittedOf K s).length ≤ K - s.inflight.length := by
          unfold admittedOf
          rw [hlen_take]
          exact Nat.min_le_left _ _
        have hlen_adm2 : (admittedOf K s).length ≤ s.remaining.length := by
          unfold admittedOf
          rw [hlen_take]
          exact Nat.min_le_right _ _
        have hlen_inf1 : (inflightAfterAdmit opts pa K s).length =
            s.inflight.length + (admittedOf K s).length := by
          unfold inflightAfterAdmit
          rw [List.length_append, List.length_map]
        have hf2 : (nextState opts pa K sched s).remaining.length +
            (nextState opts pa K sched s).inflight.length ≤ fuel := by
          rw [hs2rem, hs2inf, List.length_drop,
            List.length_eraseIdx_of_lt hidx, hlen_inf1]
          rw [hlen_inf1] at hlen1
          omega
        have hnd2 : (nextState opts pa K sched s).table.Nodup := by
          rw [hs2tbl]
          exact hh2nd.erase _
        have hsub2 : ∀ x ∈ (nextState opts pa K sched s).table,
            x ∈ (nextState opts pa K sched s).inflight.map
              fun mm => mm.1 := by
          intro x hx
          rw [hs2tbl] at hx
          rcases (List.Nodup.mem_erase_iff hh2nd).1 hx with ⟨hxne, hxh2⟩
          have hxtbl1 : x ∈ tableAfterAdmit K s := hh1.subset hxh2
          have hxinf1 : x ∈ (inflightAfterAdmit opts pa K s).map
              fun mm => mm.1 := by
            rcases (htblmem x).1 hxtbl1 with hxt | ⟨u, hu, hud⟩
            · have hmap := hsub x hxt
              unfold inflightAfterAdmit
              rw [List.map_append]
              exact List.mem_append_left _ hmap
            · unfold inflightAfterAdmit
              rw [List.map_append]
              refine List.mem_append_right _ ?_
              rw [List.map_map]
              refine List.mem_map.2 ⟨u, hu, ?_⟩
              simp [Function.comp, run_test_fst, hud]
          rcases List.mem_map.1 hxinf1 with ⟨mm, hmm, hmmeq⟩
          have hmmne : mm ≠
              (inflightAfterAdmit opts pa K s)[(sched.headD ([], 0)).2 %
                (inflightAfterAdmit opts pa K s).length] := by
            rw [← hmdef]
            intro h
            exact hxne (by rw [← hmmeq, h])
          rw [hs2inf]
          exact List.mem_map.2 ⟨mm, mem_eraseIdx_of_ne hidx hmm hmmne, hmmeq⟩
        have hproj : projDesc d (concLoop opts pa K (fuel + 1) sched s) =
            List.replicate ((admittedOf K s).countP fun t => t.desc == d)
                (TestEvent.TeWait d) ++
              projDesc d (harvestTimedOut (sched.headD ([], 0)).1
                  (tableAfterAdmit K s)).1 ++
              ((if (deliveredOf opts pa K sched s).1 = d then
                  [TestEvent.TeResult (deliveredOf opts pa K sched s).1
                      (deliveredOf opts pa K sched s).2.1
                      (deliveredOf opts pa K sched s).2.2]
                else []) ++
                projDesc d (concLoop opts pa K fuel sched.tail
                  (nextState opts pa K sched s))) := by
          rw [hloop, projDesc_append, projDesc_append, projDesc_waitEvs,
            projDesc_result_cons]
        refine ⟨?_, ?_, ?_, ?_⟩
        · -- still in remaining
          intro hrc
          have hic : (s.inflight.countP fun mm => mm.1 == d) = 0 := by omega
          have hsum : ((admittedOf K s).countP fun t => t.desc == d) +
              ((s.remaining.drop (K - s.inflight.length)).countP
                fun t => t.desc == d) = 1 := by
            rw [← hsplitR]
            exact hrc
          by_cases hac : ((admittedOf K s).countP fun t => t.desc == d) = 1
          · have hrc' : ((s.remaining.drop (K - s.inflight.length)).countP
                fun t => t.desc == d) = 0 := by omega
            have hdadm : ∃ u ∈ admittedOf K s, u.desc = d := by
              have hpos : 0 < (admittedOf K s).countP
                  fun t => t.desc == d := by omega
              rw [List.countP_pos_iff] at hpos
              rcases hpos with ⟨u, hu, hud⟩
              exact ⟨u, hu, by simpa using hud⟩
            have hdtbl1 : d ∈ tableAfterAdmit K s :=
              (htblmem d).2 (Or.inr hdadm)
            have hic1v : ((inflightAfterAdmit opts pa K s).countP
                fun mm => mm.1 == d) = 1 := by
              rw [hic1, hic, hac]
            rcases hh3 hdtbl1 with ⟨hhp, hhm⟩ | ⟨hhp, hhm⟩
            · by_cases hm1 : (deliveredOf opts pa K sched s).1 = d
              · have hicE : (((inflightAfterAdmit opts pa K s).eraseIdx
                    ((sched.headD ([], 0)).2 %
                      (inflightAfterAdmit opts pa K s).length)).countP
                    fun mm => mm.1 == d) = 0 := by
                  have hite : (if ((deliveredOf opts pa K sched s).1 == d) =
                      true then 1 else 0) = 1 := by simp [hm1]
                  rw [hite] at hicE_base
                  omega
                rcases ih sched.tail (nextState opts pa K sched s) hf2 hnd2
                    hsub2 (by rw [hs2rem, hs2inf]; omega) with ⟨_, _, _, ihD⟩
                have hrest : projDesc d (concLoop opts pa K fuel sched.tail
                    (nextState opts pa K sched s)) = [] :=
                  ihD (by rw [hs2rem]; exact hrc') (by rw [hs2inf]; exact hicE)
                refine ⟨0, (deliveredOf opts pa K sched s).2.1,
                  (deliveredOf opts pa K sched s).2.2, ?_⟩
                rw [hproj, hac, hhp, hrest, if_pos hm1, hm1]
                simp
              · have hicE : (((inflightAfterAdmit opts pa K s).eraseIdx
                    ((sched.headD ([], 0)).2 %
                      (inflightAfterAdmit opts pa K s).length)).countP
                    fun mm => mm.1 == d) = 1 := by
                  have hite : (if ((deliveredOf opts pa K sched s).1 == d) =
                      true then 1 else 0) = 0 := by simp [hm1]
                  rw [hite] at hicE_base
                  omega
                have hdtbl2 : d ∈ (nextState opts pa K sched s).table := by
                  rw [hs2tbl]
                  exact (List.Nodup.mem_erase_iff hh2nd).2
                    ⟨fun h => hm1 h.symm, hhm⟩
                rcases ih sched.tail (nextState opts pa K sched s) hf2 hnd2
                    hsub2 (by rw [hs2rem, hs2inf]; omega) with ⟨_, ihB, _, _⟩
                rcases ihB (by rw [hs2inf]; exact hicE) hdtbl2 with
                  ⟨k, r, o, hrest⟩
                refine ⟨k, r, o, ?_⟩
                rw [hproj, hac, hhp, hrest, if_neg hm1]
                simp
            · have hdtbl2 : d ∉ (nextState opts pa K sched s).table := by
                rw [hs2tbl]
                intro hmem
                exact hhm (List.mem_of_mem_erase hmem)
              by_cases hm1 : (deliveredOf opts pa K sched s).1 = d
              · have hicE : (((inflightAfterAdmit opts pa K s).eraseIdx
                    ((sched.headD ([], 0)).2 %
                      (inflightAfterAdmit opts pa K s).length)).countP
                    fun mm => mm.1 == d) = 0 := by
                  have hite : (if ((deliveredOf opts pa K sched s).1 == d) =
                      true then 1 else 0) = 1 := by simp [hm1]
                  rw [hite] at hicE_base
                  omega
                rcases ih sched.tail (nextState opts pa K sched s) hf2 hnd2
                    hsub2 (by rw [hs2rem, hs2inf]; omega) with ⟨_, _, _, ihD⟩
                have hrest : projDesc d (concLoop opts pa K fuel sched.tail
                    (nextState opts pa K sched s)) = [] :=
                  ihD (by rw [hs2rem]; exact hrc') (by rw [hs2inf]; exact hicE)
                refine ⟨1, (deliveredOf opts pa K sched s).2.1,
                  (deliveredOf opts pa K sched s).2.2, ?_⟩
                rw [hproj, hac, hhp, hrest, if_pos hm1, hm1]
                simp
              · have hicE : (((inflightAfterAdmit opts pa K s).eraseIdx
                    ((sched.headD ([], 0)).2 %
                      (inflightAfterAdmit opts pa K s).length)).countP
                    fun mm => mm.1 == d) = 1 := by
                  have hite : (if ((deliveredOf opts pa K sched s).1 == d) =
                      true then 1 else 0) = 0 := by simp [hm1]
                  rw [hite] at hicE_base
                  omega
                rcases ih sched.tail (nextState opts pa K sched s) hf2 hnd2
                    hsub2 (by rw [hs2rem, hs2inf]; omega) with ⟨_, _, ihC, _⟩
                rcases ihC (by rw [hs2inf]; exact hicE)
                    hdtbl2 with
                  ⟨r, o, hrest⟩
                refine ⟨1, r, o, ?_⟩
                rw [hproj, hac, hhp, hrest, if_neg hm1]
                simp
          · have hac0 : ((admittedOf K s).countP fun t => t.desc == d) = 0 :=
              by omega
            have hrc' : ((s.remaining.drop (K - s.inflight.length)).countP
                fun t => t.desc == d) = 1 := by omega
            have hic1v : ((inflightAfterAdmit opts pa K s).countP
                fun mm => mm.1 == d) = 0 := by
              rw [hic1, hic, hac0]
            have hm1 : (deliveredOf opts pa K sched s).1 ≠ d := by
              intro h
              have hpos : 0 < (inflightAfterAdmit opts pa K s).countP
                  fun mm => mm.1 == d :=
                List.countP_pos_iff.2 ⟨_, hmmem, by simp [h]⟩
              omega
            have hdtbl1 : d ∉ tableAfterAdmit K s := by
              intro hmem
              rcases (htblmem d).1 hmem with hxt | ⟨u, hu, hud⟩
              · have hmap := hsub d hxt
                rcases List.mem_map.1 hmap with ⟨mm, hmm, hmmeq⟩
                have hpos : 0 < s.inflight.countP fun mm => mm.1 == d :=
                  List.countP_pos_iff.2 ⟨mm, hmm, by simp [hmmeq]⟩
                omega
              · have hpos : 0 < (admittedOf K s).countP
                    fun t => t.desc == d :=
                  List.countP_pos_iff.2 ⟨u, hu, by simp [hud]⟩
                omega
            rcases hh2 hdtbl1 with ⟨hhp, hhm⟩
            have hicE : (((inflightAfterAdmit opts pa K s).eraseIdx
                ((sched.headD ([], 0)).2 %
                  (inflightAfterAdmit opts pa K s).length)).countP
                fun mm => mm.1 == d) = 0 := by
              have hite : (if ((deliveredOf opts pa K sched s).1 == d) =
                  true then 1 else 0) = 0 := by simp [hm1]
              rw [hite] at hicE_base
              omega
            rcases ih sched.tail (nextState opts pa K sched s) hf2 hnd2 hsub2
                (by rw [hs2rem, hs2inf]; omega) with ⟨ihA, _, _, _⟩
            rcases ihA (by rw [hs2rem]; exact hrc') with ⟨k, r, o, hrest⟩
            refine ⟨k, r, o, ?_⟩
            rw [hproj, hac0, hhp, hrest, if_neg hm1]
            simp
        · -- in flight and still in the table
          intro hic hdtbl
          have hrc : (s.remaining.countP fun t => t.desc == d) = 0 := by omega
          have hac0 : ((admittedOf K s).countP fun t => t.desc == d) = 0 := by
            omega
          have hic1v : ((inflightAfterAdmit opts pa K s).countP
              fun mm => mm.1 == d) = 1 := by
            rw [hic1, hic, hac0]
          have hdtbl1 : d ∈ tableAfterAdmit K s :=
            (htblmem d).2 (Or.inl hdtbl)
          rcases hh3 hdtbl1 with ⟨hhp, hhm⟩ | ⟨hhp, hhm⟩
          · by_cases hm1 : (deliveredOf opts pa K sched s).1 = d
            · have hicE : (((inflightAfterAdmit opts pa K s).eraseIdx
                  ((sched.headD ([], 0)).2 %
                    (inflightAfterAdmit opts pa K s).length)).countP
                  fun mm => mm.1 == d) = 0 := by
                have hite : (if ((deliveredOf opts pa K sched s).1 == d) =
                    true then 1 else 0) = 1 := by simp [hm1]
                rw [hite] at hicE_base
                omega
              rcases ih sched.tail (nextState opts pa K sched s) hf2 hnd2
                  hsub2 (by rw [hs2rem, hs2inf]; omega) with ⟨_, _, _, ihD⟩
              have hrest : projDesc d (concLoop opts pa K fuel sched.tail
                  (nextState opts pa K sched s)) = [] :=
                ihD (by rw [hs2rem]; omega) (by rw [hs2inf]; exact hicE)
              refine ⟨0, (deliveredOf opts pa K sched s).2.1,
                (deliveredOf opts pa K sched s).2.2, ?_⟩
              rw [hproj, hac0, hhp, hrest, if_pos hm1, hm1]
              simp
            · have hicE : (((inflightAfterAdmit opts pa K s).eraseIdx
                  ((sched.headD ([], 0)).2 %
                    (inflightAfterAdmit opts pa K s).length)).countP
                  fun mm => mm.1 == d) = 1 := by
                have hite : (if ((deliveredOf opts pa K sched s).1 == d) =
                    true then 1 else 0) = 0 := by simp [hm1]
                rw [hite] at hicE_base
                omega
              have hdtbl2 : d ∈ (nextState opts pa K sched s).table := by
                rw [hs2tbl]
                exact (List.Nodup.mem_erase_iff hh2nd).2
                  ⟨fun h => hm1 h.symm, hhm⟩
              rcases ih sched.tail (nextState opts pa K sched s) hf2 hnd2
                  hsub2 (by rw [hs2rem, hs2inf]; omega) with ⟨_, ihB, _, _⟩
              rcases ihB (by rw [hs2inf]; exact hicE) hdtbl2 with
                ⟨k, r, o, hrest⟩
              refine ⟨k, r, o, ?_⟩
              rw [hproj, hac0, hhp, hrest, if_neg hm1]
              simp
          · have hdtbl2 : d ∉ (nextState opts pa K sched s).table := by
              rw [hs2tbl]
              intro hmem
              exact hhm (List.mem_of_mem_erase hmem)
            by_cases hm1 : (deliveredOf opts pa K sched s).1 = d
            · have hicE : (((inflightAfterAdmit opts pa K s).eraseIdx
                  ((sched.headD ([], 0)).2 %
                    (inflightAfterAdmit opts pa K s).length)).countP
                  fun mm => mm.1 == d) = 0 := by
                have hite : (if ((deliveredOf opts pa K sched s).1 == d) =
                    true then 1 else 0) = 1 := by simp [hm1]
                rw [hite] at hicE_base
                omega
              rcases ih sched.tail (nextState opts pa K sched s) hf2 hnd2
                  hsub2 (by rw [hs2rem, hs2inf]; omega) with ⟨_, _, _, ihD⟩
              have hrest : projDesc d (concLoop opts pa K fuel sched.tail
                  (nextState opts pa K sched s)) = [] :=
                ihD (by rw [hs2rem]; omega) (by rw [hs2inf]; exact hicE)
              refine ⟨1, (deliveredOf opts pa K sched s).2.1,
                (deliveredOf opts pa K sched s).2.2, ?_⟩
              rw [hproj, hac0, hhp, hrest, if_pos hm1, hm1]
              simp
            · have hicE : (((inflightAfterAdmit opts pa K s).eraseIdx
                  ((sched.headD ([], 0)).2 %
                    (inflightAfterAdmit opts pa K s).length)).countP
                  fun mm => mm.1 == d) = 1 := by
                have hite : (if ((deliveredOf opts pa K sched s).1 == d) =
                    true then 1 else 0) = 0 := by simp [hm1]
                rw [hite] at hicE_base
                omega
              rcases ih sched.tail (nextState opts pa K sched s) hf2 hnd2
                  hsub2 (by rw [hs2rem, hs2inf]; omega) with ⟨_, _, ihC, _⟩
              rcases ihC (by rw [hs2inf]; exact hicE)
                  hdtbl2 with
                ⟨r, o, hrest⟩
              refine ⟨1, r, o, ?_⟩
              rw [hproj, hac0, hhp, hrest, if_neg hm1]
              simp
        · -- in flight, already harvested
          intro hic hdtbl
          have hrc : (s.remaining.countP fun t => t.desc == d) = 0 := by omega
          have hac0 : ((admittedOf K s).countP fun t => t.desc == d) = 0 := by
            omega
          have hic1v : ((inflightAfterAdmit opts pa K s).countP
              fun mm => mm.1 == d) = 1 := by
            rw [hic1, hic, hac0]
          have hdtbl1 : d ∉ tableAfterAdmit K s := by
            intro hmem
            rcases (htblmem d).1 hmem with hxt | ⟨u, hu, hud⟩
            · exact hdtbl hxt
            · have hpos : 0 < (admittedOf K s).countP fun t => t.desc == d :=
                List.countP_pos_iff.2 ⟨u, hu, by simp [hud]⟩
              omega
          rcases hh2 hdtbl1 with ⟨hhp, hhm⟩
          have hdtbl2 : d ∉ (nextState opts pa K sched s).table := by
            rw [hs2tbl]
            intro hmem
            exact hhm (List.mem_of_mem_erase hmem)
          by_cases hm1 : (deliveredOf opts pa K sched s).1 = d
          · have hicE : (((inflightAfterAdmit opts pa K s).eraseIdx
                ((sched.headD ([], 0)).2 %
                  (inflightAfterAdmit opts pa K s).length)).countP
                fun mm => mm.1 == d) = 0 := by
              have hite : (if ((deliveredOf opts pa K sched s).1 == d) =
                  true then 1 else 0) = 1 := by simp [hm1]
              rw [hite] at hicE_base
              omega
            rcases ih sched.tail (nextState opts pa K sched s) hf2 hnd2 hsub2
                (by rw [hs2rem, hs2inf]; omega) with ⟨_, _, _, ihD⟩
            have hrest : projDesc d (concLoop opts pa K fuel sched.tail
                (nextState opts pa K sched s)) = [] :=
              ihD (by rw [hs2rem]; omega) (by rw [hs2inf]; exact hicE)
            refine ⟨(deliveredOf opts pa K sched s).2.1,
              (deliveredOf opts pa K sched s).2.2, ?_⟩
            rw [hproj, hac0, hhp, hrest, if_pos hm1, hm1]
            simp
          · have hicE : (((inflightAfterAdmit opts pa K s).eraseIdx
                ((sched.headD ([], 0)).2 %
                  (inflightAfterAdmit opts pa K s).length)).countP
                fun mm => mm.1 == d) = 1 := by
              have hite : (if ((deliveredOf opts pa K sched s).1 == d) =
                  true then 1 else 0) = 0 := by simp [hm1]
              rw [hite] at hicE_base
              omega
            rcases ih sched.tail (nextState opts pa K sched s) hf2 hnd2 hsub2
                (by rw [hs2rem, hs2inf]; omega) with ⟨_, _, ihC, _⟩
            rcases ihC (by rw [hs2inf]; exact hicE)
                hdtbl2 with ⟨r, o, hrest⟩
            refine ⟨r, o, ?_⟩
            rw [hproj, hac0, hhp, hrest, if_neg hm1]
            simp
        · -- not scheduled at all
          intro hrc hic
          have hac0 : ((admittedOf K s).countP fun t => t.desc == d) = 0 := by
            omega
          have hic1v : ((inflightAfterAdmit opts pa K s).countP
              fun mm => mm.1 == d) = 0 := by
            rw [hic1, hic, hac0]
          have hm1 : (deliveredOf opts pa K sched s).1 ≠ d := by
            intro h
            have hpos : 0 < (inflightAfterAdmit opts pa K s).countP
                fun mm => mm.1 == d :=
              List.countP_pos_iff.2 ⟨_, hmmem, by simp [h]⟩
            omega
          have hdtbl1 : d ∉ tableAfterAdmit K s := by
            intro hmem
            rcases (htblmem d).1 hmem with hxt | ⟨u, hu, hud⟩
            · have hmap := hsub d hxt
              rcases List.mem_map.1 hmap with ⟨mm, hmm, hmmeq⟩
              have hpos : 0 < s.inflight.countP fun mm => mm.1 == d :=
                List.countP_pos_iff.2 ⟨mm, hmm, by simp [hmmeq]⟩
              omega
            · have hpos : 0 < (admittedOf K s).countP fun t => t.desc == d :=
                List.countP_pos_iff.2 ⟨u, hu, by simp [hud]⟩
              omega
          rcases hh2 hdtbl1 with ⟨hhp, hhm⟩
          have hicE : (((inflightAfterAdmit opts pa K s).eraseIdx
              ((sched.headD ([], 0)).2 %
                (inflightAfterAdmit opts pa K s).length)).countP
              fun mm => mm.1 == d) = 0 := by
            have hite : (if ((deliveredOf opts pa K sched s).1 == d) =
                true then 1 else 0) = 0 := by simp [hm1]
            rw [hite] at hicE_base
            omega
          rcases ih sched.tail (nextState opts pa K sched s) hf2 hnd2 hsub2
              (by rw [hs2rem, hs2inf]; omega) with ⟨_, _, _, ihD⟩
          have hrest : projDesc d (concLoop opts pa K fuel sched.tail
              (nextState opts pa K sched s)) = [] :=
            ihD (by rw [hs2rem]; omega) (by rw [hs2inf]; exact hicE)
          rw [hproj, hac0, hhp, hrest, if_neg hm1]
          simp

theorem projDesc_serialPhase_zero (opts : TestOpts) (pa fi : Bool)
    (d : TestDesc) :
    ∀ l : List TestDescAndFn, (l.countP fun t => t.desc == d) = 0 →
      projDesc d (serialPhase opts pa fi l) = [] := by
  intro l
  induction l with
  | nil => intro _; rfl
  | cons t ts ih =>
    intro hc
    rw [List.countP_cons] at hc
    have ht : (t.desc == d) = false := by
      by_contra hcon
      rw [Bool.not_eq_false] at hcon
      have hite : (if (t.desc == d) = true then 1 else 0) = 1 := by rw [hcon]; decide
      rw [hite] at hc
      omega
    have hite : (if (t.desc == d) = true then 1 else 0) = 0 := by rw [ht]; decide
    rw [hite] at hc
    have hts : (ts.countP fun t => t.desc == d) = 0 := by omega
    simp only [serialPhase, List.flatMap_cons] at ih ⊢
    rw [projDesc_append, ih hts]
    have hres : (run_test opts pa fi t).1 = t.desc := run_test_fst _ _ _ _
    simp [projDesc, List.filter_cons, mentionsDesc, ht, hres]

theorem projDesc_serialPhase_one (opts : TestOpts) (pa fi : Bool)
    (d : TestDesc) :
    ∀ l : List TestDescAndFn, (l.countP fun t => t.desc == d) = 1 →
      ∃ r o, projDesc d (serialPhase opts pa fi l) =
        [TestEvent.TeWait d, TestEvent.TeResult d r o] := by
  intro l
  induction l with
  | nil => intro hc; simp at hc
  | cons t ts ih =>
    intro hc
    rw [List.countP_cons] at hc
    simp only [serialPhase, List.flatMap_cons] at ih ⊢
    rcases h : t.desc == d with _ | _
    · have hite : (if (t.desc == d) = true then 1 else 0) = 0 := by rw [h]; decide
      rw [hite, Nat.add_zero] at hc
      rcases ih hc with ⟨r, o, hih⟩
      refine ⟨r, o, ?_⟩
      rw [projDesc_append, hih]
      have hres : (run_test opts pa fi t).1 = t.desc := run_test_fst _ _ _ _
      simp [projDesc, List.filter_cons, mentionsDesc, h, hres]
    · have hite : (if (t.desc == d) = true then 1 else 0) = 1 := by rw [h]; decide
      rw [hite] at hc
      have hts : (ts.countP fun t => t.desc == d) = 0 := by omega
      have hzero := projDesc_serialPhase_zero opts pa fi d ts hts
      simp only [serialPhase] at hzero
      have hd' : t.desc = d := by simpa using h
      refine ⟨(run_test opts pa fi t).2.1, (run_test opts pa fi t).2.2, ?_⟩
      rw [projDesc_append, hzero]
      have hres : (run_test opts pa fi t).1 = t.desc := run_test_fst _ _ _ _
      simp [projDesc, List.filter_cons, mentionsDesc, hd', hres]

theorem countP_filter_split {α : Type} (p q : α → Bool) (l : List α) :
    l.countP p =
      ((l.filter q).countP p) + ((l.filter fun a => !q a).countP p) := by
  induction l with
  | nil => rfl
  | cons a as ih =>
    by_cases hq : q a = true <;> by_cases hp : p a = true <;>
        simp [List.filter_cons, List.countP_cons, hq, hp, ih] <;> omega

/-- When benchmarks are converted to tests, the benchmark partition is
empty. -/
theorem benchsPart_nil (opts : TestOpts) (tests : List TestDescAndFn)
    (hb : opts.bench_benchmarks = false) :
    (filteredForRun opts tests).filter (fun e => !isTestKind e.testfn) =
      [] := by
  rw [List.filter_eq_nil_iff]
  intro a ha
  unfold filteredForRun at ha
  rw [hb] at ha
  simp only [Bool.not_false, if_pos] at ha
  rcases List.mem_map.1 ha with ⟨b, hb', rfl⟩
  unfold convert_benchmarks_to_tests at hb'
  rcases List.mem_map.1 hb' with ⟨c, _, rfl⟩
  cases c.testfn <;> simp [applyPadding, isTestKind]

theorem projDesc_head_skip (d : TestDesc) (n : Nat) (ds : List TestDesc)
    (evs : List TestEvent) :
    projDesc d
        (TestEvent.TeFilteredOut n :: TestEvent.TeFiltered ds :: evs) =
      projDesc d evs := by
  simp [projDesc, List.filter_cons, mentionsDesc]

/-- Claim C2: in every run, each scheduled entry (under distinct
descriptors) produces exactly one `Wait` and exactly one `Result` event,
and every `Timeout` event for that entry sits between its `Wait` and its
`Result`: the subsequence of the trace mentioning the entry is exactly
`Wait, Timeout^k, Result`. -/
theorem run_tests_event_discipline (opts : TestOpts)
    (tests : List TestDescAndFn) (pa : Bool) (defK : Nat)
    (sched : List (List Nat × Nat)) (fuel : Nat)
    (hnd : ((filteredForRun opts tests).map fun t => t.desc).Nodup)
    (hK : 1 ≤ opts.test_threads.getD defK)
    (hfuel : (filteredForRun opts tests).length ≤ fuel)
    (d : TestDesc)
    (hd : d ∈ (filteredForRun opts tests).map fun t => t.desc) :
    ∃ k r o, projDesc d (run_tests opts tests pa defK sched fuel) =
      TestEvent.TeWait d ::
        (List.replicate k (TestEvent.TeTimeout d) ++
          [TestEvent.TeResult d r o]) := by
  have hcnt1 : ((filteredForRun opts tests).countP fun t => t.desc == d) =
      1 := by
    have h1 := List.count_eq_one_of_mem hnd hd
    rw [List.count_eq_countP, List.countP_map] at h1
    rw [← h1]
    exact List.countP_congr fun t _ => by simp [Function.comp]
  have hsplit := countP_filter_split (fun t => t.desc == d)
    (fun e => isTestKind e.testfn) (filteredForRun opts tests)
  have hprojtrace : projDesc d (run_tests opts tests pa defK sched fuel) =
      projDesc d
          (if opts.test_threads.getD defK = 1 then
            serialPhase opts pa (!opts.run_tests)
              ((filteredForRun opts tests).filter
                fun e => isTestKind e.testfn)
          else
            concLoop opts pa (opts.test_threads.getD defK) fuel sched
              { remaining :=
                  (filteredForRun opts tests).filter
                    fun e => isTestKind e.testfn
                inflight := [], table := [] }) ++
        projDesc d
          (if opts.bench_benchmarks then
            serialPhase opts pa false
              ((filteredForRun opts tests).filter
                fun e => !isTestKind e.testfn)
          else []) := by
    simp only [run_tests, List.partition_eq_filter_filter]
    rw [projDesc_head_skip, projDesc_append]
    rfl
  set A := (filteredForRun opts tests).filter fun e => isTestKind e.testfn
    with hA
  set B := (filteredForRun opts tests).filter fun e => !isTestKind e.testfn
    with hB
  have hABle : (A.countP fun t => t.desc == d) +
      (B.countP fun t => t.desc == d) = 1 := by
    rw [← hsplit]
    exact hcnt1
  have hAfuel : A.length ≤ fuel :=
    le_trans (List.length_filter_le _ _) hfuel
  by_cases hcA : (A.countP fun t => t.desc == d) = 1
  · -- the entry is in the test partition
    have hcB : (B.countP fun t => t.desc == d) = 0 := by omega
    have hbench : projDesc d
        (if opts.bench_benchmarks then serialPhase opts pa false B
         else []) = [] := by
      split
      · exact projDesc_serialPhase_zero opts pa false d B hcB
      · rfl
    by_cases hk1 : opts.test_threads.getD defK = 1
    · rcases projDesc_serialPhase_one opts pa (!opts.run_tests) d A hcA with
        ⟨r, o, hser⟩
      refine ⟨0, r, o, ?_⟩
      rw [hprojtrace, if_pos hk1, hser, hbench]
      simp
    · have hconc := concLoop_proj opts pa (opts.test_threads.getD defK) d hK
        fuel sched { remaining := A, inflight := [], table := [] }
        (by simpa using hAfuel) (by simp) (by simp) (by simpa using hcA.le)
      rcases hconc with ⟨ihA, _, _, _⟩
      rcases ihA hcA with ⟨k, r, o, hser⟩
      refine ⟨k, r, o, ?_⟩
      rw [hprojtrace, if_neg hk1, hser, hbench]
      simp
  · -- the entry is in the benchmark partition
    have hcA0 : (A.countP fun t => t.desc == d) = 0 := by omega
    have hcB : (B.countP fun t => t.desc == d) = 1 := by omega
    have hbb : opts.bench_benchmarks = true := by
      by_contra hbb
      rw [Bool.not_eq_true] at hbb
      have : B = [] := benchsPart_nil opts tests hbb
      rw [this] at hcB
      simp at hcB
    have hmain : projDesc d
        (if opts.test_threads.getD defK = 1 then
          serialPhase opts pa (!opts.run_tests) A
        else
          concLoop opts pa (opts.test_threads.getD defK) fuel sched
            { remaining := A, inflight := [], table := [] }) = [] := by
      split
      · exact projDesc_serialPhase_zero opts pa (!opts.run_tests) d A hcA0
      · have hconc := concLoop_proj opts pa (opts.test_threads.getD defK) d
          hK fuel sched { remaining := A, inflight := [], table := [] }
          (by simpa using hAfuel) (by simp) (by simp)
          (by simp only [List.countP_nil, hcA0]; omega)
        rcases hconc with ⟨_, _, _, ihD⟩
        exact ihD hcA0 rfl
    rcases projDesc_serialPhase_one opts pa false d B hcB with ⟨r, o, hser⟩
    refine ⟨0, r, o, ?_⟩
    rw [hprojtrace, hmain, if_pos hbb, hser]
    simp

/-- The descriptor of the surviving entry of `onlyList` after filtering
and the padding rewrite. -/
def onlyRunDesc : TestDesc :=
  { name := TestName.AlignedTestName "1" NamePadding.PadNone
    ignore := false
    should_panic := ShouldPanic.No
    allow_fail := false }

/-- Witness for claim C2 at a concrete input: a two-thread run of one
entry. -/
theorem run_tests_event_discipline_witness :
    (((filteredForRun { onlyOpts with test_threads := some 2 }
          onlyList).map fun t => t.desc).Nodup ∧
        1 ≤ ({ onlyOpts with test_threads := some 2 } :
          TestOpts).test_threads.getD 4 ∧
        (filteredForRun { onlyOpts with test_threads := some 2 }
            onlyList).length ≤ 3 ∧
        onlyRunDesc ∈ (filteredForRun { onlyOpts with test_threads := some 2 }
          onlyList).map fun t => t.desc) ∧
      ∃ k r o,
        projDesc onlyRunDesc
            (run_tests { onlyOpts with test_threads := some 2 } onlyList
              false 4 [] 3) =
          TestEvent.TeWait onlyRunDesc ::
            (List.replicate k (TestEvent.TeTimeout onlyRunDesc) ++
              [TestEvent.TeResult onlyRunDesc r o]) :=
  ⟨⟨by decide, by decide, by decide, by decide⟩,
    run_tests_event_discipline { onlyOpts with test_threads := some 2 }
      onlyList false 4 [] 3 (by decide) (by decide) (by decide) onlyRunDesc
      (by decide)⟩

/-- Options for the claim C5 counterexample: a serial run with benchmarks
kept as benchmarks. -/
def serialBenchOpts : TestOpts :=
  { filter := none
    filter_exact := false
    exclude_should_panic := false
    run_ignored := RunIgnored.No
    run_tests := true
    bench_benchmarks := true
    nocapture := false
    test_threads := some 1
    skip := [] }

/-- A benchmark entry named "a". -/
def benchEntryA : TestDescAndFn :=
  { desc :=
      { name := TestName.StaticTestName "a"
        ignore := false
        should_panic := ShouldPanic.No
        allow_fail := false }
    testfn := TestFn.StaticBenchFn noIterBody }

/-- A test entry named "b". -/
def testEntryB : TestDescAndFn :=
  { desc :=
      { name := TestName.StaticTestName "b"
        ignore := false
        should_panic := ShouldPanic.No
        allow_fail := false }
    testfn := TestFn.StaticTestFn { result := Except.ok (), output := [] } }

/-- Claim C5 fails as stated: with `test_threads == 1`,
`bench_benchmarks = true` and a benchmark sorting before a test, the
benchmark runs after the test phase, so the `Result` events ("b" then
"a") are not in globally sorted name order. -/
theorem run_tests_result_order_counterexample :
    ¬ List.Sorted strLe
      (resultNames
        (run_tests serialBenchOpts [benchEntryA, testEntryB] false 1 []
          2)) := by
  have heval : resultNames
      (run_tests serialBenchOpts [benchEntryA, testEntryB] false 1 [] 2) =
      ["b", "a"] := by decide
  rw [heval]
  intro hs
  have := List.rel_of_sorted_cons hs "a" (by simp)
  revert this
  decide

/-- Whether an event is a `Result` event. -/
def isResultEvent : TestEvent → Bool
  | .TeResult _ _ _ => true
  | _ => false

/-- Whether an event is a `Wait`, `Timeout` or `Result` event. -/
def isMainEvent : TestEvent → Bool
  | .TeWait _ => true
  | .TeTimeout _ => true
  | .TeResult _ _ _ => true
  | _ => false

theorem dispatch_total_main (st : ConsoleTestState) (e : TestEvent)
    (he : isMainEvent e = true) : (dispatchEvent st e).total = st.total := by
  cases e with
  | TeFiltered ds => simp [isMainEvent] at he
  | TeFilteredOut n => simp [isMainEvent] at he
  | TeWait d => rfl
  | TeTimeout d => rfl
  | TeResult d r o => cases r <;> rfl

theorem dispatch_count_main (st : ConsoleTestState) (e : TestEvent)
    (he : isMainEvent e = true) :
    current_test_count (dispatchEvent st e) =
      current_test_count st + (if isResultEvent e then 1 else 0) := by
  cases e with
  | TeFiltered ds => simp [isMainEvent] at he
  | TeFilteredOut n => simp [isMainEvent] at he
  | TeWait d => simp [dispatchEvent, isResultEvent]
  | TeTimeout d => simp [dispatchEvent, isResultEvent]
  | TeResult d r o =>
    cases r <;>
      simp [dispatchEvent, isResultEvent, current_test_count] <;> omega

theorem foldl_dispatch_main :
    ∀ (evs : List TestEvent) (st : ConsoleTestState),
      (∀ e ∈ evs, isMainEvent e = true) →
      ((evs.foldl dispatchEvent st).total = st.total ∧
        current_test_count (evs.foldl dispatchEvent st) =
          current_test_count st + evs.countP isResultEvent) := by
  intro evs
  induction evs with
  | nil => intro st _; exact ⟨rfl, by simp⟩
  | cons e es ih =>
    intro st hall
    have he := hall e (List.mem_cons_self e es)
    have hes := fun e' he' => hall e' (List.mem_cons_of_mem _ he')
    rw [List.foldl_cons, List.countP_cons]
    rcases ih (dispatchEvent st e) hes with ⟨ih1, ih2⟩
    refine ⟨by rw [ih1, dispatch_total_main st e he], ?_⟩
    rw [ih2, dispatch_count_main st e he]
    omega

theorem harvest_events_timeout :
    ∀ (hs : List Nat) (t : List TestDesc) (e : TestEvent),
      e ∈ (harvestTimedOut hs t).1 → ∃ dd, e = TestEvent.TeTimeout dd := by
  intro hs
  induction hs with
  | nil => intro t e he; simp [harvestTimedOut] at he
  | cons i is ih =>
    intro t e he
    match t with
    | [] => exact ih [] e (by simpa [harvestTimedOut] using he)
    | d0 :: ds =>
      have hunf : (harvestTimedOut (i :: is) (d0 :: ds)).1 =
          TestEvent.TeTimeout
              ((d0 :: ds).getD (i % (d0 :: ds).length) d0) ::
            (harvestTimedOut is
              ((d0 :: ds).erase
                ((d0 :: ds).getD (i % (d0 :: ds).length) d0))).1 := rfl
      rw [hunf] at he
      rcases List.mem_cons.1 he with rfl | he'
      · exact ⟨_, rfl⟩
      · exact ih _ e he'

theorem serialPhase_main_events (opts : TestOpts) (pa fi : Bool)
    (l : List TestDescAndFn) :
    ∀ e ∈ serialPhase opts pa fi l, isMainEvent e = true := by
  intro e he
  simp only [serialPhase, List.mem_flatMap] at he
  rcases he with ⟨t, _, hmem⟩
  rcases List.mem_cons.1 hmem with rfl | hmem'
  · rfl
  · rcases List.mem_cons.1 hmem' with rfl | hmem''
    · rfl
    · simp at hmem''

theorem concLoop_main_events (opts : TestOpts) (pa : Bool) (K : Nat) :
    ∀ (fuel : Nat) (sched : List (List Nat × Nat)) (s : ConcState),
      ∀ e ∈ concLoop opts pa K fuel sched s, isMainEvent e = true := by
  intro fuel
  induction fuel with
  | zero => intro sched s e he; simp [concLoop] at he
  | succ fuel ih =>
    intro sched s e he
    rw [concLoop] at he
    split at he
    · simp at he
    · split at he
      · rw [List.mem_append] at he
        rcases he with he | he
        · rcases List.mem_map.1 he with ⟨t, _, rfl⟩
          rfl
        · rcases harvest_events_timeout _ _ e he with ⟨dd, rfl⟩
          rfl
      · rw [List.mem_append] at he
        rcases he with he | he
        · rw [List.mem_append] at he
          rcases he with he | he
          · rcases List.mem_map.1 he with ⟨t, _, rfl⟩
            rfl
          · rcases harvest_events_timeout _ _ e he with ⟨dd, rfl⟩
            rfl
        · rcases List.mem_cons.1 he with rfl | he'
          · rfl
          · exact ih sched.tail _ e he'

theorem serialPhase_countResults (opts : TestOpts) (pa fi : Bool) :
    ∀ l : List TestDescAndFn,
      (serialPhase opts pa fi l).countP isResultEvent = l.length := by
  intro l
  induction l with
  | nil => rfl
  | cons t ts ih =>
    simp only [serialPhase, List.flatMap_cons] at ih ⊢
    rw [List.countP_append, ih]
    simp [isResultEvent, List.countP_cons]
    omega

theorem harvest_countResults (hs : List Nat) (t : List TestDesc) :
    (harvestTimedOut hs t).1.countP isResultEvent = 0 := by
  rw [List.countP_eq_zero]
  intro e he
  rcases harvest_events_timeout hs t e he with ⟨dd, rfl⟩
  simp [isResultEvent]

theorem concLoop_countResults (opts : TestOpts) (pa : Bool) (K : Nat)
    (hK : 1 ≤ K) :
    ∀ (fuel : Nat) (sched : List (List Nat × Nat)) (s : ConcState),
      s.remaining.length + s.inflight.length ≤ fuel →
      (concLoop opts pa K fuel sched s).countP isResultEvent =
        s.remaining.length + s.inflight.length := by
  intro fuel
  induction fuel with
  | zero =>
    intro sched s hf
    simp only [concLoop, List.countP_nil]
    omega
  | succ fuel ih =>
    intro sched s hf
    by_cases hstop : (s.remaining.isEmpty && s.inflight.isEmpty) = true
    · rw [Bool.and_eq_true, List.isEmpty_iff, List.isEmpty_iff] at hstop
      rw [concLoop, if_pos (by simp [hstop.1, hstop.2])]
      simp [hstop.1, hstop.2]
    · by_cases hi : (inflightAfterAdmit opts pa K s).isEmpty = true
      · exfalso
        rw [List.isEmpty_iff] at hi
        unfold inflightAfterAdmit at hi
        rcases List.append_eq_nil.1 hi with ⟨hinf, hadm⟩
        rw [List.map_eq_nil_iff] at hadm
        unfold admittedOf at hadm
        rw [hinf] at hadm
        simp only [List.length_nil, Nat.sub_zero] at hadm
        rcases List.take_eq_nil_iff.1 hadm with h | h
        · omega
        · rw [h, hinf] at hstop
          simp at hstop
      · have hi' : ¬((inflightAfterAdmit opts pa K s).isEmpty = true) := by
          simp [hi]
        rw [concLoop, if_neg hstop, if_neg hi']
        have hne1 : inflightAfterAdmit opts pa K s ≠ [] := by
          intro h
          rw [h] at hi'
          simp at hi'
        have hlen1 : 0 < (inflightAfterAdmit opts pa K s).length :=
          List.length_pos.2 hne1
        have hidx : (sched.headD ([], 0)).2 %
            (inflightAfterAdmit opts pa K s).length <
            (inflightAfterAdmit opts pa K s).length := Nat.mod_lt _ hlen1
        have hlen_take :=
          List.length_take (K - s.inflight.length) s.remaining
        have hlen_inf1 : (inflightAfterAdmit opts pa K s).length =
            s.inflight.length + (admittedOf K s).length := by
          unfold inflightAfterAdmit
          rw [List.length_append, List.length_map]
        have hf2 : (nextState opts pa K sched s).remaining.length +
            (nextState opts pa K sched s).inflight.length ≤ fuel := by
          show (s.remaining.drop (K - s.inflight.length)).length +
            ((inflightAfterAdmit opts pa K s).eraseIdx
              ((sched.headD ([], 0)).2 %
                (inflightAfterAdmit opts pa K s).length)).length ≤ fuel
          rw [List.length_drop, List.length_eraseIdx_of_lt hidx, hlen_inf1]
          rw [hlen_inf1] at hlen1
          have hadm_len : (admittedOf K s).length =
              Min.min (K - s.inflight.length) s.remaining.length := by
            unfold admittedOf
            exact List.length_take _ _
          omega
        rw [List.countP_append, List.countP_append, List.countP_cons]
        rw [harvest_countResults]
        have hwaits : ((admittedOf K s).map fun t =>
            TestEvent.TeWait t.desc).countP isResultEvent = 0 := by
          rw [List.countP_eq_zero]
          intro e he
          rcases List.mem_map.1 he with ⟨t, _, rfl⟩
          simp [isResultEvent]
        rw [hwaits, ih sched.tail _ hf2]
        show 0 + 0 + ((nextState opts pa K sched s).remaining.length +
          (nextState opts pa K sched s).inflight.length +
            (1 + 0)) = s.remaining.length + s.inflight.length
        have hr2 : (nextState opts pa K sched s).remaining.length =
            (s.remaining.drop (K - s.inflight.length)).length := rfl
        have hi2 : (nextState opts pa K sched s).inflight.length =
            ((inflightAfterAdmit opts pa K s).eraseIdx
              ((sched.headD ([], 0)).2 %
                (inflightAfterAdmit opts pa K s).length)).length := rfl
        rw [hr2, hi2, List.length_drop, List.length_eraseIdx_of_lt hidx,
          hlen_inf1]
        rw [hlen_inf1] at hlen1
        have hadm_len : (admittedOf K s).length =
            Min.min (K - s.inflight.length) s.remaining.length := by
          unfold admittedOf
          exact List.length_take _ _
        omega

/-- Claim C3: for every completing run, the dispatcher of
`run_tests_console` ends with
`passed + failed + ignored + allowed_fail + measured == total`, where
`total` is the length of the list announced by the `Filtered` event; each
`Result` event increments exactly one counter. -/
theorem run_tests_console_counts (opts : TestOpts)
    (tests : List TestDescAndFn) (pa : Bool) (defK : Nat)
    (sched : List (List Nat × Nat)) (fuel : Nat)
    (hK : 1 ≤ opts.test_threads.getD defK)
    (hfuel : (filteredForRun opts tests).length ≤ fuel) :
    current_test_count
        ((run_tests opts tests pa defK sched fuel).foldl dispatchEvent
          initConsoleState) =
      ((run_tests opts tests pa defK sched fuel).foldl dispatchEvent
        initConsoleState).total ∧
      ((run_tests opts tests pa defK sched fuel).foldl dispatchEvent
        initConsoleState).total =
        ((filteredForRun opts tests).map fun t => t.desc).length := by
  have htrace : run_tests opts tests pa defK sched fuel =
      TestEvent.TeFilteredOut
          (tests.length - (filteredForRun opts tests).length) ::
        TestEvent.TeFiltered ((filteredForRun opts tests).map fun t =>
          t.desc) ::
        ((if opts.test_threads.getD defK = 1 then
            serialPhase opts pa (!opts.run_tests)
              ((filteredForRun opts tests).filter
                fun e => isTestKind e.testfn)
          else
            concLoop opts pa (opts.test_threads.getD defK) fuel sched
              { remaining :=
                  (filteredForRun opts tests).filter
                    fun e => isTestKind e.testfn
                inflight := [], table := [] }) ++
          (if opts.bench_benchmarks then
            serialPhase opts pa false
              ((filteredForRun opts tests).filter
                fun e => !isTestKind e.testfn)
          else [])) := by
    simp only [run_tests, List.partition_eq_filter_filter]
    rfl
  set A := (filteredForRun opts tests).filter fun e => isTestKind e.testfn
    with hA
  set B := (filteredForRun opts tests).filter fun e => !isTestKind e.testfn
    with hB
  have hlenAB : A.length + B.length = (filteredForRun opts tests).length := by
    have h1 := countP_filter_split (fun _ => true)
      (fun e => isTestKind e.testfn) (filteredForRun opts tests)
    simpa [List.countP_true] using h1.symm
  have hAfuel : A.length ≤ fuel :=
    le_trans (List.length_filter_le _ _) hfuel
  set mainEvs :=
    (if opts.test_threads.getD defK = 1 then
      serialPhase opts pa (!opts.run_tests) A
    else
      concLoop opts pa (opts.test_threads.getD defK) fuel sched
        { remaining := A, inflight := [], table := [] }) with hmain
  set benchEvs :=
    (if opts.bench_benchmarks then serialPhase opts pa false B else [])
    with hbench
  have hmainsh : ∀ e ∈ mainEvs ++ benchEvs, isMainEvent e = true := by
    intro e he
    rw [List.mem_append] at he
    rcases he with he | he
    · rw [hmain] at he
      split at he
      · exact serialPhase_main_events _ _ _ _ e he
      · exact concLoop_main_events _ _ _ _ _ _ e he
    · rw [hbench] at he
      split at he
      · exact serialPhase_main_events _ _ _ _ e he
      · simp at he
  have hcountMain : mainEvs.countP isResultEvent = A.length := by
    rw [hmain]
    split
    · exact serialPhase_countResults _ _ _ A
    · rw [concLoop_countResults opts pa _ hK fuel sched _
        (by simpa using hAfuel)]
      simp
  have hcountBench : benchEvs.countP isResultEvent = B.length := by
    rw [hbench]
    split
    · exact serialPhase_countResults _ _ _ B
    · rename_i hbb
      rw [Bool.not_eq_true] at hbb
      rw [hB, benchsPart_nil opts tests hbb]
      rfl
  rw [htrace]
  rw [List.foldl_cons, List.foldl_cons]
  have hstep := foldl_dispatch_main (mainEvs ++ benchEvs)
    (dispatchEvent
      (dispatchEvent initConsoleState
        (TestEvent.TeFilteredOut
          (tests.length - (filteredForRun opts tests).length)))
      (TestEvent.TeFiltered ((filteredForRun opts tests).map fun t =>
        t.desc)))
    hmainsh
  rcases hstep with ⟨h1, h2⟩
  have hst2 : (dispatchEvent
      (dispatchEvent initConsoleState
        (TestEvent.TeFilteredOut
          (tests.length - (filteredForRun opts tests).length)))
      (TestEvent.TeFiltered ((filteredForRun opts tests).map fun t =>
        t.desc))).total =
      ((filteredForRun opts tests).map fun t => t.desc).length := rfl
  have hst2c : current_test_count (dispatchEvent
      (dispatchEvent initConsoleState
        (TestEvent.TeFilteredOut
          (tests.length - (filteredForRun opts tests).length)))
      (TestEvent.TeFiltered ((filteredForRun opts tests).map fun t =>
        t.desc))) = 0 := rfl
  constructor
  · rw [h2, h1, List.countP_append, hcountMain, hcountBench, hst2, hst2c,
      List.length_map]
    omega
  · rw [h1]
    exact hst2

/-- Witness for claim C3 at a concrete input. -/
theorem run_tests_console_counts_witness :
    (1 ≤ ({ onlyOpts with test_threads := some 2 } :
        TestOpts).test_threads.getD 4 ∧
      (filteredForRun { onlyOpts with test_threads := some 2 }
          onlyList).length ≤ 3) ∧
      current_test_count
          ((run_tests { onlyOpts with test_threads := some 2 } onlyList
              false 4 [] 3).foldl dispatchEvent initConsoleState) =
        ((run_tests { onlyOpts with test_threads := some 2 } onlyList false
            4 [] 3).foldl dispatchEvent initConsoleState).total :=
  ⟨⟨by decide, by decide⟩,
    (run_tests_console_counts { onlyOpts with test_threads := some 2 }
      onlyList false 4 [] 3 (by decide) (by decide)).1⟩

namespace junit

/-- The XML prologue line written by the JUnit formatter. -/
def prologue : String := "<?xml version=\"1.0\" encoding=\"UTF-8\"?>"

/-- `JUnitFormatter::write_run_start` (`src/libtest/formatters/junit.rs`
lines 27-29): one `write_message` call emitting the prologue line. -/
def write_run_start (test_count : Nat) : List String :=
  let _ := test_count
  [prologue]

/-- The `<testsuite ...>` header line of `write_run_finish` (the elapsed
time and timestamp are formatted from the clock, supplied here as
strings). -/
def suiteOpen (failed total : Nat) (time timestamp : String) : String :=
  "<testsuite name=\"test\" package=\"test\" id=\"0\" " ++
    ("hostname=\"localhost\" errors=\"0\" failures=\"" ++
      (toString failed ++
        ("\" tests=\"" ++
          (toString total ++
            ("\" time=\"" ++ (time ++ ("\" timestamp=\"" ++
              (timestamp ++ "\">"))))))))

/-- The testcase lines `write_run_finish` emits for one recorded result
(junit.rs lines 72-115). -/
def caseLines : TestDesc × TestResult → List String
  | (desc, TestResult.TrFailed) =>
    ["<testcase classname=\"test.global\" name=\"" ++
        (desc.name.as_slice ++ "\" time=\"0\">"),
      "<failure type=\"assert\"/>", "</testcase>"]
  | (desc, TestResult.TrFailedMsg m) =>
    ["<testcase classname=\"test.global\" name=\"" ++
        (desc.name.as_slice ++ "\" time=\"0\">"),
      "<failure message=\"" ++ (m ++ "\" type=\"assert\"/>"),
      "</testcase>"]
  | (desc, TestResult.TrBench b) =>
    ["<testcase classname=\"test.global\" name=\"" ++
        (desc.name.as_slice ++
          ("\" time=\"" ++ (toString b.ns_iter_summ.sum ++ "\" />")))]
  | (desc, _) =>
    ["<testcase classname=\"test.global\" name=\"" ++
        (desc.name.as_slice ++ "\" time=\"0\"/>")]

/-- `JUnitFormatter::write_run_finish` (junit.rs lines 50-122): the
prologue again, the suite header, the recorded testcases, and the
closing tags. -/
def write_run_finish (failed total : Nat) (time timestamp : String)
    (results : List (TestDesc × TestResult)) : List String :=
  [prologue, "<testsuites>", suiteOpen failed total time timestamp] ++
    results.flatMap caseLines ++
    ["<system-out/>", "<system-err/>", "</testsuite>", "</testsuites>"]

/-- The lines a whole formatter session writes: `write_run_start` once at
the start, nothing for test start / timeout / result events (results are
only recorded), and `write_run_finish` once at the end. -/
def sessionLines (test_count failed total : Nat) (time timestamp : String)
    (results : List (TestDesc × TestResult)) : List String :=
  write_run_start test_count ++
    write_run_finish failed total time timestamp results

end junit

theorem string_append_ne_of_take2 (pre x : String)
    (h2 : pre.data.take 2 ≠ junit.prologue.data.take 2)
    (hlen : 2 ≤ pre.data.length) : pre ++ x ≠ junit.prologue := by
  intro he
  apply h2
  have hdata : (pre ++ x).data = junit.prologue.data := by rw [he]
  rw [String.data_append] at hdata
  have htake : (pre.data ++ x.data).take 2 = junit.prologue.data.take 2 := by
    rw [hdata]
  rw [List.take_append_eq_append_take,
    show 2 - pre.data.length = 0 from by omega, List.take_zero,
    List.append_nil] at htake
  exact htake

theorem caseLines_ne_prologue (pr : TestDesc × TestResult) :
    ∀ l ∈ junit.caseLines pr, l ≠ junit.prologue := by
  rcases pr with ⟨desc, r⟩
  cases r <;> intro l hl <;> simp only [junit.caseLines, List.mem_cons,
    List.mem_singleton, List.not_mem_nil, or_false] at hl
  case TrOk => exact hl ▸ string_append_ne_of_take2 _ _ (by decide) (by decide)
  case TrIgnored =>
    exact hl ▸ string_append_ne_of_take2 _ _ (by decide) (by decide)
  case TrAllowedFail =>
    exact hl ▸ string_append_ne_of_take2 _ _ (by decide) (by decide)
  case TrBench b =>
    exact hl ▸ string_append_ne_of_take2 _ _ (by decide) (by decide)
  case TrFailed =>
    rcases hl with rfl | rfl | rfl
    · exact string_append_ne_of_take2 _ _ (by decide) (by decide)
    · decide
    · decide
  case TrFailedMsg m =>
    rcases hl with rfl | rfl | rfl
    · exact string_append_ne_of_take2 _ _ (by decide) (by decide)
    · exact string_append_ne_of_take2 _ _ (by decide) (by decide)
    · decide

/-- Claim C9: over a full JUnit-formatted run, the XML prologue line is
written exactly twice — once by `write_run_start` and once again by
`write_run_finish` — whatever the recorded results are. -/
theorem junit_prologue_written_twice (test_count failed total : Nat)
    (time timestamp : String) (results : List (TestDesc × TestResult)) :
    (junit.sessionLines test_count failed total time timestamp
          results).count junit.prologue = 2 ∧
      (junit.write_run_start test_count).count junit.prologue = 1 ∧
      (junit.write_run_finish failed total time timestamp results).count
          junit.prologue = 1 := by
  have hcase : (results.flatMap junit.caseLines).count junit.prologue = 0 := by
    rw [List.count_eq_zero]
    intro hmem
    rcases List.mem_flatMap.1 hmem with ⟨pr, _, hl⟩
    exact caseLines_ne_prologue pr _ hl rfl
  have hsuite : junit.suiteOpen failed total time timestamp ≠
      junit.prologue :=
    string_append_ne_of_take2 _ _ (by decide) (by decide)
  have hfin : (junit.write_run_finish failed total time timestamp
      results).count junit.prologue = 1 := by
    unfold junit.write_run_finish
    rw [List.count_append, List.count_append, hcase]
    rw [List.count_cons, List.count_cons, List.count_cons]
    simp only [List.count_nil, List.count_cons]
    have h1 : (("<testsuites>" : String) == junit.prologue) = false := by
      decide
    have h2 : ((junit.suiteOpen failed total time timestamp) ==
        junit.prologue) = false := by
      simpa using hsuite
    have h3 : ((junit.prologue) == junit.prologue) = true := by simp
    simp [h1, h2, h3]
    decide
  refine ⟨?_, rfl, hfin⟩
  unfold junit.sessionLines
  rw [List.count_append, hfin]
  rfl

end Libtest
